import Mathlib

/-!
# gsmmux: the GSM 07.10 multiplexer daemon

A shallow embedding of `src/gsm0710.c` (frame encoder `write_frame`, control
channel handler `handle_command`, link state machine `extract_frames`) and of
`src/main.c` (`ussp_send_data`, `ussp_recv_data`, `findInBuf`,
`openDevicesAndMuxMode`, `closeDevices` and the supervising end of the loop of
`main`), followed by theorems about them.

Conventions of the embedding.
* A byte (`unsigned char`) is a `Nat` below 256; an `int` is an `Int`.
* The globals of the daemon are the fields of `Mux`.
* `write(serial_fd, ...)` is driven by a `Sink`, which says how many bytes the
  k-th call accepts; the bytes that were accepted are appended to `Mux.wire`.
* An access outside an array (undefined behaviour in C) makes the embedded
  function return `none`.
* A loop whose number of iterations depends on the environment takes its
  inputs as a list, one per iteration, and gives `none` when the list runs out
  before the loop stops.
-/

namespace Gsmmux

/-! ## Constants of `gsm0710.h` -/

/-- Modelled from the spec: `gsm0710.h` is not among the sources; the frame
flag is `F_FLAG = 0xF9`. -/
def F_FLAG : Nat := 0xF9

/-- Modelled from the spec: `gsm0710.h` is not among the sources; EA is the
stop bit, bit 0 of the address, length and type bytes. -/
def EA : Nat := 1

/-- Modelled from the spec: `gsm0710.h` is not among the sources; CR is the
command/response bit, bit 1 of the address and type bytes. -/
def CR : Nat := 2

/-- Modelled from the spec: `gsm0710.h` is not among the sources; the P/F bit
of the control field is 0x10. -/
def PF : Nat := 0x10

/-- Modelled from the spec: `gsm0710.h` is not among the sources; control
field of a SABM frame. -/
def SABM : Nat := 0x2F

/-- Modelled from the spec: `gsm0710.h` is not among the sources; control
field of a UA frame. -/
def UA : Nat := 0x63

/-- Modelled from the spec: `gsm0710.h` is not among the sources; control
field of a DM frame. -/
def DM : Nat := 0x0F

/-- Modelled from the spec: `gsm0710.h` is not among the sources; control
field of a DISC frame. -/
def DISC : Nat := 0x43

/-- Modelled from the spec: `gsm0710.h` is not among the sources; control
field of a UIH frame. -/
def UIH : Nat := 0xEF

/-- Modelled from the spec: `gsm0710.h` is not among the sources; control
field of a UI frame. -/
def UI : Nat := 0x03

/-- Modelled from the spec: `gsm0710.h` is not among the sources; multiplexer
close-down command. -/
def C_CLD : Nat := 0xC1

/-- Modelled from the spec: `gsm0710.h` is not among the sources; test
command. -/
def C_TEST : Nat := 0x21

/-- Modelled from the spec: `gsm0710.h` is not among the sources; modem status
command. -/
def C_MSC : Nat := 0xE1

/-- Modelled from the spec: `gsm0710.h` is not among the sources; non-supported
command response. -/
def C_NSC : Nat := 0x11

/-- Modelled from the spec: `gsm0710.h` is not among the sources; V.24 flow
control bit. -/
def S_FC : Nat := 0x02

/-- Modelled from the spec: `gsm0710.h` is not among the sources; V.24 RTC
bit. -/
def S_RTC : Nat := 0x04

/-- Modelled from the spec: `gsm0710.h` is not among the sources; V.24 ring
bit. -/
def S_IC : Nat := 0x40

/-- Modelled from the spec: `gsm0710.h` is not among the sources; V.24 data
valid bit. -/
def S_DV : Nat := 0x80

/-- The value of `x & ~m` for a byte `x` promoted to `int` and a mask `m` that
is a small positive constant: bit clearing inside the low eight bits. -/
def and_not (x m : Nat) : Nat := x &&& (255 - m)

/-- Conversion of an `int` to `unsigned char`. -/
def uchar (x : Int) : Nat := (x % 256).toNat

/-! ## Frame check sequence -/

/-- One bit step of the reversed CRC-8 with polynomial 0xE0. -/
def crc_step (c : Nat) : Nat :=
  if c &&& 1 = 1 then (c >>> 1) ^^^ 0xE0 else c >>> 1

/-- Modelled from the spec: the table `r_crctable` of `buffer.c` is not among
the sources; it is the standard reversed-polynomial 0xE0 CRC-8 table of
3GPP TS 27.010, entry `i` being eight bit steps applied to `i`. -/
def r_crctable (i : Nat) : Nat :=
  crc_step (crc_step (crc_step (crc_step (crc_step (crc_step (crc_step (crc_step i)))))))

/-- Modelled from the spec: `make_fcs` of `buffer.c` is not among the sources;
the FCS is the reverse CRC-8 of the given bytes, started at 0xFF, one table
lookup per byte, complemented at the end. -/
def make_fcs (input : List Nat) : Nat :=
  0xFF - input.foldl (fun fcs b => r_crctable (fcs ^^^ b)) 0xFF

/-! ## Data model -/

/-- A decoded frame (`GSM0710_Frame`); `data_length` is the length of `data`. -/
structure GSM0710_Frame where
  channel : Nat
  control : Nat
  data : List Nat
deriving DecidableEq, Repr

/-- The field `data_length` of a frame. -/
def GSM0710_Frame.data_length (frame : GSM0710_Frame) : Nat := frame.data.length

/-- One row of the channel table (`Channel_Status`). -/
structure Channel_Status where
  opened : Int
  v24_signals : Nat
deriving DecidableEq, Repr

/-- The behaviour of the serial device: `sink k n` is what the k-th call of
`write(serial_fd, buf, n)` returns (the number of bytes accepted, or -1). -/
abbrev Sink := Nat → Nat → Int

/-- A sink that accepts every write in full. -/
def full_sink : Sink := fun _ n => (n : Int)

/-- The globals of the daemon that the mux engine reads and writes.
`wire` holds the bytes the serial device has accepted, `writes` counts the
calls of `write(serial_fd, ...)`, and `ussp p` holds the bytes handed to
`write(ussp_fd[p], ...)`. -/
structure Mux where
  max_frame_size : Int
  faultTolerant : Int
  restart : Int
  terminate : Int
  terminateCount : Int
  cstatus : List Channel_Status
  ussp : List (List Nat)
  wire : List Nat
  writes : Nat
deriving DecidableEq, Repr

/-- The call `write(serial_fd, buf, n)`: the sink decides the return value `c`;
the first `c` of the `n` requested bytes reach the wire. -/
def write_serial (sink : Sink) (st : Mux) (buf : List Nat) (n : Nat) : Mux × Int :=
  let c := sink st.writes n
  ({ st with wire := st.wire ++ (buf.take n).take c.toNat, writes := st.writes + 1 }, c)

/-! ## `write_frame` (gsm0710.c) -/

/-- The address byte `prefix[1]`. -/
def address_byte (channel : Int) : Nat :=
  ((EA ||| CR) ||| ((63 &&& uchar channel) <<< 2)) % 256

/-- The length bytes `prefix[3]` and, in the long form, `prefix[4]`, for the
already truncated `count`. In the short form a negative `count` gives the
two's-complement value of `1 | (count << 1)`, which is `2 * count + 1`. -/
def length_field (count : Int) : List Nat :=
  if count > 127 then
    [((127 &&& count.toNat) <<< 1) % 256, ((32640 &&& count.toNat) >>> 7) % 256]
  else if 0 ≤ count then
    [(1 ||| (count.toNat <<< 1)) % 256]
  else
    [uchar (2 * count + 1)]

/-- The first `prefix_length` bytes of the array `prefix`, as they stand when
the prefix is written: flag, address, control, length. -/
def frame_header (channel : Int) (type : Nat) (count : Int) : List Nat :=
  [F_FLAG, address_byte channel, type % 256] ++ length_field count

/-- The array `postfix`: the FCS of `prefix + 1 .. prefix_length - 1`, then the
flag. -/
def frame_trailer (channel : Int) (type : Nat) (count : Int) : List Nat :=
  [make_fcs ((frame_header channel type count).drop 1) % 256, F_FLAG]

/-- The third write of `write_frame`: `write(serial_fd, postfix, 2)` and the
final `return count`. -/
def write_trailer (sink : Sink) (st : Mux) (post : List Nat) (count : Int) : Mux × Int :=
  let (st3, c) := write_serial sink st post 2
  if c ≠ 2 then (st3, 0) else (st3, count)

/-- The function `write_frame(channel, input, count, type)`: the new state and
the returned `int`. The global `max_frame_size` is a field of the state. -/
def write_frame (sink : Sink) (channel : Int) (input : List Nat) (count : Int)
    (type : Nat) (st : Mux) : Mux × Int :=
  let count := min st.max_frame_size count
  let pre := frame_header channel type count
  let post := frame_trailer channel type count
  let (st1, c) := write_serial sink st pre pre.length
  if c ≠ pre.length then (st1, 0)
  else if count > 0 then
    let (st2, c) := write_serial sink st1 input count.toNat
    if count ≠ c then (st2, 0)
    else write_trailer sink st2 post count
  else write_trailer sink st1 post count

/-! ## `handle_command` (gsm0710.c) -/

/-- The loop `for (i = 0; data_length > i && (data[i] & EA) == 0; i++)`, run on
the bytes from index `i` on; the value of `i` when it stops. -/
def skip_type : List Nat → Nat → Nat
  | [], i => i
  | b :: rest, i => if b &&& EA = 0 then skip_type rest (i + 1) else i

/-- The loop `while (data_length > i)` that extracts the length of a command,
run on the bytes from index `i` on; the values of `i` and `length` when it
stops. -/
def extract_length : List Nat → Nat → Int → Nat × Int
  | [], i, length => (i, length)
  | b :: rest, i, length =>
    let length := length * 128 + (((b &&& 254) >>> 1 : Nat) : Int)
    if b &&& 1 = 1 then (i, length) else extract_length rest (i + 1) length

/-- The loop `while (type_length--)` that copies the type bytes into the
response; `none` when it reads `data[i - 2]` outside the frame data. -/
def copy_type (data : List Nat) : Nat → Nat → List Nat → Option (List Nat × Nat)
  | 0, i, response => some (response, i)
  | type_length + 1, i, response =>
    match data[i - 2]? with
    | none => none
    | some b => copy_type data type_length (i + 1) (response ++ [b])

/-- The acknowledgement of a supported command: CR is cleared in `data[0]` and
the payload is sent back as a UIH on channel 0. -/
def acknowledge (sink : Sink) (frame : GSM0710_Frame) (type : Nat) (st : Mux) : Mux :=
  (write_frame sink 0 (frame.data.set 0 (and_not type CR)) frame.data_length UIH st).1

/-- The function `handle_command(frame)`. -/
def handle_command (sink : Sink) (frame : GSM0710_Frame) (st : Mux) : Option Mux :=
  if frame.data_length > 0 then
    match frame.data[0]? with
    | none => none
    | some type =>
      let i := skip_type frame.data 0
      let i := i + 1
      let type_length := i
      if type &&& CR = CR then
        let i := (extract_length (frame.data.drop i) i 0).1
        let i := i + 1
        if and_not type CR = C_CLD then
          let st1 :=
            if st.faultTolerant ≠ 0 then { st with restart := 1 }
            else { st with terminate := 1, terminateCount := -1 }
          some (acknowledge sink frame type st1)
        else if and_not type CR = C_TEST then
          some (acknowledge sink frame type st)
        else if and_not type CR = C_MSC then
          if i + 1 < frame.data_length then
            -- channel and signals are read and only logged
            match frame.data[i]?, frame.data[i + 1]? with
            | some _, some _ => some (acknowledge sink frame type st)
            | _, _ => none
          else some (acknowledge sink frame type st)
        else
          let response := [C_NSC, (EA &&& ((127 &&& type_length) <<< 1)) % 256]
          match copy_type frame.data type_length 2 response with
          | none => none
          | some (response, i) => some (write_frame sink 0 response i UIH st).1
      else some st
  else some st

/-! ## `ussp_send_data` (main.c) and `extract_frames` (gsm0710.c) -/

/-- The function `ussp_send_data(buf, n, port)`: one `write(ussp_fd[port], buf, n)`
whose return value is discarded; `none` when `port` is outside `ussp_fd`. -/
def ussp_send_data (buf : List Nat) (n : Nat) (port : Nat) (st : Mux) : Option Mux :=
  match st.ussp[port]? with
  | none => none
  | some old => some { st with ussp := st.ussp.set port (old ++ buf.take n) }

/-- Modelled from the spec: the test `FRAME_IS(type, frame)` is declared in
`gsm0710.h`, which is not among the sources; it compares the control field
with the P/F bit masked off. -/
def FRAME_IS (type : Nat) (frame : GSM0710_Frame) : Bool :=
  and_not frame.control PF == type

/-- The array `version_test`: nineteen bytes, of which eighteen are sent. -/
def version_test : List Nat :=
  [0x23, 0x21, 0x04, 0x54, 0x45, 0x4D, 0x55, 0x58, 0x56, 0x45, 0x52, 0x53, 0x49, 0x4F,
   0x4E, 0x32, 0, 0, 0]

/-- The assignment `cstatus[channel].opened = v`. -/
def set_opened (st : Mux) (channel : Nat) (cs : Channel_Status) (v : Int) : Mux :=
  { st with cstatus := st.cstatus.set channel { cs with opened := v } }

/-- One iteration of the `while` loop of `extract_frames`, for the frame that
`gsm0710_buffer_get_frame` returned; `none` when `cstatus` or `ussp_fd` is
indexed outside its bounds. -/
def extract_frames_one (sink : Sink) (frame : GSM0710_Frame) (st : Mux) : Option Mux :=
  if FRAME_IS UI frame || FRAME_IS UIH frame then
    if frame.channel > 0 then
      ussp_send_data frame.data frame.data_length (frame.channel - 1) st
    else handle_command sink frame st
  else if and_not frame.control PF = UA then
    match st.cstatus[frame.channel]? with
    | none => none
    | some cs =>
      if cs.opened = 1 then some (set_opened st frame.channel cs 0)
      else
        let st1 := set_opened st frame.channel cs 1
        if frame.channel = 0 then some (write_frame sink 0 version_test 18 UIH st1).1
        else some st1
  else if and_not frame.control PF = DM then
    match st.cstatus[frame.channel]? with
    | none => none
    | some cs =>
      if cs.opened ≠ 0 then some (set_opened st frame.channel cs 0)
      else if frame.channel = 0 then some { st with terminate := 1, terminateCount := -1 }
      else some st
  else if and_not frame.control PF = DISC then
    match st.cstatus[frame.channel]? with
    | none => none
    | some cs =>
      if cs.opened ≠ 0 then
        let st1 := set_opened st frame.channel cs 0
        let st2 := (write_frame sink frame.channel [] 0 (UA ||| PF) st1).1
        if frame.channel = 0 then
          if st2.faultTolerant ≠ 0 then some { st2 with restart := 1 }
          else some { st2 with terminate := 1, terminateCount := -1 }
        else some st2
      else some (write_frame sink frame.channel [] 0 (DM ||| PF) st).1
  else if and_not frame.control PF = SABM then
    match st.cstatus[frame.channel]? with
    | none => none
    | some cs =>
      let st1 := set_opened st frame.channel cs 1
      some (write_frame sink frame.channel [] 0 (UA ||| PF) st1).1
  else some st

/-- The function `extract_frames(buf)`, run on the frames that the successive
calls of `gsm0710_buffer_get_frame(buf)` return; the new state and the
returned `framesExtracted`. -/
def extract_frames (sink : Sink) : List GSM0710_Frame → Mux → Option (Mux × Int)
  | [], st => some (st, 0)
  | frame :: rest, st =>
    match extract_frames_one sink frame st with
    | none => none
    | some st1 =>
      match extract_frames sink rest st1 with
      | none => none
      | some (st2, framesExtracted) => some (st2, framesExtracted + 1)

/-- An example state: default frame size, no fault tolerance, two endpoints,
all channels closed. -/
def st0 : Mux :=
  { max_frame_size := 31, faultTolerant := 0, restart := 0, terminate := 0,
    terminateCount := 2,
    cstatus := [⟨0, 0x8D⟩, ⟨0, 0x8D⟩, ⟨0, 0x8D⟩],
    ussp := [[], []], wire := [], writes := 0 }

/-- Modelled from the spec: the frame decoder of `buffer.c` is not among the
sources; this is the spec's rule for reading the length field at the head of a
byte sequence: if bit 0 of `LEN` is 1 the length is `LEN >> 1`, otherwise it is
`(LEN >> 1) | (LEN_EXT << 7)`. The result is the length and the bytes after
the field. -/
def decode_length : List Nat → Option (Nat × List Nat)
  | [] => none
  | len :: rest =>
    if len &&& 1 = 1 then some (len >>> 1, rest)
    else
      match rest with
      | [] => none
      | len_ext :: rest => some ((len >>> 1) ||| (len_ext <<< 7), rest)

/-- The complete frame that `write_frame(channel, input, count, type)` sets
out to write: prefix, payload, postfix. -/
def whole_frame (channel : Int) (input : List Nat) (count : Int) (type : Nat)
    (st : Mux) : List Nat :=
  frame_header channel type (min st.max_frame_size count)
    ++ input.take (min st.max_frame_size count).toNat
    ++ frame_trailer channel type (min st.max_frame_size count)

/-- One of the writes that `write_frame` makes is answered by the sink with
fewer bytes than requested: the prefix write, or the payload write after a
full prefix write, or the postfix write after full writes before it. -/
def short_write (sink : Sink) (channel : Int) (count : Int) (type : Nat) (st : Mux) : Prop :=
  sink st.writes (frame_header channel type (min st.max_frame_size count)).length
      < (frame_header channel type (min st.max_frame_size count)).length ∨
  (sink st.writes (frame_header channel type (min st.max_frame_size count)).length
      = (frame_header channel type (min st.max_frame_size count)).length ∧
    ((0 < min st.max_frame_size count ∧
        sink (st.writes + 1) (min st.max_frame_size count).toNat
          < min st.max_frame_size count) ∨
     (0 < min st.max_frame_size count ∧
        sink (st.writes + 1) (min st.max_frame_size count).toNat
          = min st.max_frame_size count ∧
        sink (st.writes + 2) 2 < 2) ∨
     (min st.max_frame_size count ≤ 0 ∧ sink (st.writes + 1) 2 < 2)))

/-- A partial frame is on the wire after `write_frame`: the bytes the call
added begin with the frame header (flag, address, control, length) but not
with the whole frame, so the header is not followed by FCS and closing flag. -/
def header_without_trailer (sink : Sink) (channel : Int) (input : List Nat) (count : Int)
    (type : Nat) (st : Mux) : Prop :=
  frame_header channel type (min st.max_frame_size count)
      <+: (write_frame sink channel input count type st).1.wire.drop st.wire.length ∧
  ¬ whole_frame channel input count type st
      <+: (write_frame sink channel input count type st).1.wire.drop st.wire.length

/-- A sink that accepts its first write in full and nothing afterwards. -/
def first_only_sink : Sink := fun k n => if k = 0 then (n : Int) else 0

/-- An example state: fault-tolerant mode, two endpoints of which the second
already received two bytes, all channels open. -/
def st_open : Mux :=
  { max_frame_size := 31, faultTolerant := 1, restart := 0, terminate := 0,
    terminateCount := 2,
    cstatus := [⟨1, 0x8D⟩, ⟨1, 0x8D⟩, ⟨1, 0x8D⟩],
    ussp := [[], [0x4F, 0x4B]], wire := [], writes := 0 }

/-- An example state: three endpoints, four channels, all open, the V.24
signals at their initial value 0x8D. -/
def st4_open : Mux :=
  { max_frame_size := 31, faultTolerant := 0, restart := 0, terminate := 0,
    terminateCount := 3,
    cstatus := [⟨1, 0x8D⟩, ⟨1, 0x8D⟩, ⟨1, 0x8D⟩, ⟨1, 0x8D⟩],
    ussp := [[], [], []], wire := [], writes := 0 }

/-! ## `ussp_recv_data` and `findInBuf` (main.c) -/

/-- The constant `WRITE_RETRIES` of main.c. -/
def WRITE_RETRIES : Int := 5

/-- The `while (written != len && i < WRITE_RETRIES)` loop of
`ussp_recv_data`, run for at most `fuel` iterations from the given values of
`written` and `i`: the state and the values of `written` and `i` when the loop
stops, `none` when `fuel` iterations were not enough. The pointer
`buf + written` is the list `buf` without its first `written` bytes. -/
def ussp_recv_data_loop (sink : Sink) (buf : List Nat) (len : Int) (port : Int) :
    Nat → Int → Int → Mux → Option (Mux × Int × Int)
  | 0, written, i, st =>
    if written ≠ len ∧ i < WRITE_RETRIES then none else some (st, written, i)
  | fuel + 1, written, i, st =>
    if written ≠ len ∧ i < WRITE_RETRIES then
      let r := write_frame sink (port + 1) (buf.drop written.toNat) (len - written) UIH st
      ussp_recv_data_loop sink buf len port fuel (written + r.2)
        (if r.2 = 0 then i + 1 else i) r.1
    else some (st, written, i)

/-- The function `ussp_recv_data(buf, len, port)`, its loop given `fuel`
iterations: the new state and the returned `int`, which is the constant 0 of
the final `return 0`. -/
def ussp_recv_data (sink : Sink) (fuel : Nat) (buf : List Nat) (len : Int) (port : Int)
    (st : Mux) : Option (Mux × Int) :=
  match ussp_recv_data_loop sink buf len port fuel 0 0 st with
  | none => none
  | some (st1, _, _) => some (st1, 0)

/-- The bytes of one whole frame with the given payload, as `write_frame` lays
them out: header for the length of the payload, payload, FCS and flag. -/
def encode_frame (channel : Int) (type : Nat) (payload : List Nat) : List Nat :=
  frame_header channel type (payload.length : Int) ++ payload
    ++ frame_trailer channel type (payload.length : Int)

/-- A sink on which every write fails: `write` returns -1 and no byte is
accepted. -/
def dead_sink : Sink := fun _ _ => -1

/-- The loop of `findInBuf` over the bytes of `buf` not yet visited, from the
given value of `needleMatchedPos`. The needle is given by its bytes before the
terminating NUL, so `needle[k]` is `needle.getD k 0`. -/
def findInBuf_loop (needle : List Nat) : List Nat → Nat → Int
  | [], _ => 0
  | b :: rest, needleMatchedPos =>
    if needle.getD needleMatchedPos 0 = b then
      if needle.getD (needleMatchedPos + 1) 0 = 0 then 1
      else findInBuf_loop needle rest (needleMatchedPos + 1)
    else findInBuf_loop needle rest 0

/-- The function `findInBuf(buf, len, needle)`: the loop visits the first
`len` bytes of `buf`. -/
def findInBuf (buf : List Nat) (len : Int) (needle : List Nat) : Int :=
  if needle.getD 0 0 = 0 then 1
  else findInBuf_loop needle (buf.take len.toNat) 0

/-! ## The supervisor: `openDevicesAndMuxMode`, `closeDevices` and the loop of `main` (main.c) -/

/-- The constant `POLLING_INTERVAL` of main.c, in seconds. -/
def POLLING_INTERVAL : Int := 5

/-- The constant `MAX_PINGS` of main.c. -/
def MAX_PINGS : Int := 4

/-- The array `ping_test` of `main`: six bytes and the terminating NUL. -/
def ping_test : List Nat := [0x23, 0x09, 0x50, 0x49, 0x4E, 0x47, 0]

/-- The constant `PING_TEST_LEN` of `main`. -/
def PING_TEST_LEN : Int := 6

/-- The array `close_mux` of `main`: `{ C_CLD | CR, 1 }`. -/
def close_mux : List Nat := [C_CLD ||| CR, 1]

/-- Modelled from the spec: `gsm0710.h` is not among the sources; V.24 RTR bit,
one of the bits the initial value of `v24_signals` asserts (0x08 in
TS 27.010). -/
def S_RTR : Nat := 0x08

/-- What the platform answers during one run of `openDevicesAndMuxMode`:
whether `open_pty(ptydev[i], i)` returns a descriptor, whether
`open_serialport` does, and what the modem profile selected by `_modem_type`
(`initSiemensMC35`, `initIRZ52IT`, `initGeneric`, or none) does to the serial
link and returns; the profile touches the serial link only. -/
structure Platform where
  open_pty_ok : Nat → Bool
  open_serialport_ok : Bool
  modem_init : List Nat → Nat → (List Nat × Nat) × Int

/-- Modelled from the spec: `GSM0710_Buffer` is declared in `buffer.h`, which
is not among the sources; the receive buffer is taken by the bytes it holds
between its read and its write position. -/
abbrev GSM0710_Buffer := List Nat

/-- The state of the daemon in the loop of `main`: the globals of `Mux`, the
number of endpoints, the carry-over counts `remaining`, the receive buffer
`in_buf`, the ping counter and the time of the last frame. The tables are
allocated in `main` with `numOfPorts` entries (`ussp`, `remaining`) and
`numOfPorts + 1` entries (`cstatus`). -/
structure Daemon where
  mux : Mux
  numOfPorts : Nat
  remaining : List Int
  in_buf : GSM0710_Buffer
  pingNumber : Int
  frameReceiveTime : Int
deriving DecidableEq, Repr

/-- The first `for` loop of `openDevicesAndMuxMode`, from index `i` for `n`
more endpoints: `remaining[i] = 0`, then `open_pty`, then the reset of
`cstatus[i]`; the flag is false when an `open_pty` failed and the function
returns -1 from inside the loop. -/
def open_ports (plat : Platform) : Nat → Nat → Daemon → Daemon × Bool
  | 0, _, d => (d, true)
  | n + 1, i, d =>
    let d1 := { d with remaining := d.remaining.set i 0 }
    if plat.open_pty_ok i then
      open_ports plat n (i + 1)
        { d1 with mux := { d1.mux with
            cstatus := d1.mux.cstatus.set i
              { opened := 0, v24_signals := S_DV ||| S_RTR ||| S_RTC ||| EA } } }
    else (d1, false)

/-- The assignment `cstatus[i].opened = 0` after the first loop of
`openDevicesAndMuxMode`, where `i` is `numOfPorts`. -/
def close_last (st : Mux) (i : Nat) : Mux :=
  match st.cstatus[i]? with
  | some cs => set_opened st i cs 0
  | none => st

/-- The second `for` loop of `openDevicesAndMuxMode`, from index `i` for `n`
more channels: a SABM|PF on each data channel. -/
def open_channels (sink : Sink) : Nat → Nat → Mux → Mux
  | 0, _, st => st
  | n + 1, i, st =>
    open_channels sink n (i + 1) (write_frame sink (i : Int) [] 0 (SABM ||| PF) st).1

/-- The function `openDevicesAndMuxMode()`: the new state and the returned
`int`. -/
def openDevicesAndMuxMode (sink : Sink) (plat : Platform) (d : Daemon) : Daemon × Int :=
  let r := open_ports plat d.numOfPorts 0 d
  if r.2 = false then (r.1, -1)
  else
    let d2 := { r.1 with mux := close_last r.1.mux d.numOfPorts }
    if plat.open_serialport_ok = false then (d2, -1)
    else
      let m := plat.modem_init d2.mux.wire d2.mux.writes
      let d3 := { d2 with mux := { d2.mux with wire := m.1.1, writes := m.1.2 } }
      if m.2 ≠ 0 then (d3, m.2)
      else
        let st4 := { d3.mux with terminateCount := (d.numOfPorts : Int) }
        let st5 := (write_frame sink 0 [] 0 (SABM ||| PF) st4).1
        ({ d3 with mux := open_channels sink d.numOfPorts 1 st5 }, m.2)

/-- The function `closeDevices()`: it closes the descriptors and removes the
symbolic links, none of which is part of the state. -/
def closeDevices (d : Daemon) : Daemon := d

/-- One pass through the body of the `do` loop of the restart in `main`:
`closeDevices()`, `terminateCount = -1`, `openDevicesAndMuxMode()`; the new
state and what `openDevicesAndMuxMode` returned. -/
def restart_attempt (sink : Sink) (plat : Platform) (d : Daemon) : Daemon × Int :=
  let d1 := closeDevices d
  openDevicesAndMuxMode sink plat { d1 with mux := { d1.mux with terminateCount := -1 } }

/-- The `do ... while (!terminate)` loop of the restart in `main`, one
platform answer and one clock reading per attempt; `none` when the answers run
out before an attempt succeeds. -/
def restart_loop (sink : Sink) : List (Platform × Int) → Daemon → Option Daemon
  | [], _ => none
  | (plat, now) :: rest, d =>
    let r := restart_attempt sink plat d
    if r.2 = 0 then some { r.1 with frameReceiveTime := now, pingNumber := 1 }
    else if r.1.mux.terminate = 0 then restart_loop sink rest r.1
    else some r.1

/-- What one iteration of the loop of `main` is given when `select` reports
nothing to read: the clock reading `currentTime` and the platform answers for
the restart attempts, should a restart start in this iteration. -/
structure Tick where
  now : Int
  attempts : List (Platform × Int)

/-- The end of one iteration of the loop of `main` (the `if (terminate)` and
`else if (faultTolerant)` branches); `none` when `cstatus` is indexed outside
its bounds or a restart does not come to an end. -/
def main_loop_tail (sink : Sink) (tick : Tick) (d : Daemon) : Option Daemon :=
  if d.mux.terminate ≠ 0 then
    if d.mux.terminateCount > 0 then
      match d.mux.cstatus[d.mux.terminateCount.toNat]? with
      | none => none
      | some cs =>
        let st1 :=
          if cs.opened ≠ 0 then
            (write_frame sink d.mux.terminateCount [] 0 (DISC ||| PF) d.mux).1
          else d.mux
        some { d with mux := { st1 with terminateCount := st1.terminateCount - 1 } }
    else if d.mux.terminateCount = 0 then
      let st1 := (write_frame sink 0 close_mux 2 UIH d.mux).1
      some { d with mux := { st1 with terminateCount := st1.terminateCount - 1 } }
    else some { d with mux := { d.mux with terminateCount := d.mux.terminateCount - 1 } }
  else if d.mux.faultTolerant ≠ 0 then
    if d.mux.restart ≠ 0 ∨ d.pingNumber ≥ MAX_PINGS then
      let d1 := if d.mux.restart = 0 then d else { d with mux := { d.mux with restart := 0 } }
      restart_loop sink tick.attempts d1
    else if d.frameReceiveTime + POLLING_INTERVAL * d.pingNumber < tick.now then
      some { d with mux := (write_frame sink 0 ping_test PING_TEST_LEN UIH d.mux).1,
                    pingNumber := d.pingNumber + 1 }
    else some d
  else some d

/-- The loop `while (!terminate || terminateCount >= -1)` of `main` while
`select` reports nothing to read, one tick per iteration: the state at exit and
the number of iterations run; `none` when the ticks run out before the loop
exits, or an iteration gives `none`. -/
def main_loop_idle (sink : Sink) : List Tick → Daemon → Option (Daemon × Nat)
  | [], d =>
    if d.mux.terminate = 0 ∨ d.mux.terminateCount ≥ -1 then none else some (d, 0)
  | tick :: rest, d =>
    if d.mux.terminate = 0 ∨ d.mux.terminateCount ≥ -1 then
      match main_loop_tail sink tick d with
      | none => none
      | some d1 =>
        match main_loop_idle sink rest d1 with
        | none => none
        | some (d2, iterations) => some (d2, iterations + 1)
    else some (d, 0)

/-- The channels `n, n - 1, ..., 1`. -/
def countdown : Nat → List Nat
  | 0 => []
  | n + 1 => (n + 1) :: countdown n

/-- Whether channel `c` is marked opened in the channel table. -/
def is_opened (st : Mux) (c : Nat) : Bool :=
  match st.cstatus[c]? with
  | some cs => decide (cs.opened ≠ 0)
  | none => false

/-- The calls of `write_frame` of an orderly shutdown from the countdown `n`:
a DISC|PF on each opened channel `n, ..., 1`, then the close-down command on
DLC 0. -/
def shutdown_frames (sink : Sink) : Nat → Mux → Mux
  | 0, st => (write_frame sink 0 close_mux 2 UIH st).1
  | n + 1, st =>
    shutdown_frames sink n
      (if is_opened st (n + 1) then
        (write_frame sink ((n + 1 : Nat) : Int) [] 0 (DISC ||| PF) st).1
       else st)

/-- A platform on which everything succeeds and the modem profile sends
nothing. -/
def good_platform : Platform :=
  { open_pty_ok := fun _ => true, open_serialport_ok := true,
    modem_init := fun wire writes => ((wire, writes), 0) }

/-- An example daemon state: fault-tolerant mode, two endpoints, channels 0
and 2 open, one carry-over byte on endpoint 1, two bytes in the receive
buffer. -/
def daemon0 : Daemon :=
  { mux := { max_frame_size := 31, faultTolerant := 1, restart := 0, terminate := 0,
             terminateCount := 2,
             cstatus := [⟨1, 0x8D⟩, ⟨0, 0x8D⟩, ⟨1, 0x8D⟩],
             ussp := [[], []], wire := [], writes := 0 },
    numOfPorts := 2, remaining := [0, 1], in_buf := [0xF9, 0x07],
    pingNumber := 1, frameReceiveTime := 0 }

/-- The example daemon state with `terminate` set. -/
def daemon_stop : Daemon :=
  { daemon0 with mux := { daemon0.mux with terminate := 1 } }

/-- The example daemon state with `terminate` set and the sentinel in
`terminateCount`. -/
def daemon_stop_now : Daemon :=
  { daemon0 with mux := { daemon0.mux with terminate := 1, terminateCount := -1 } }

theorem make_fcs_lt (l : List Nat) : make_fcs l < 256 := by
  unfold make_fcs; omega

theorem and_63_uchar (channel : Int) : 63 &&& uchar channel = (channel % 64).toNat := by
  unfold uchar
  rw [Nat.and_comm]
  have h := Nat.and_pow_two_sub_one_eq_mod (channel % 256).toNat 6
  norm_num at h
  rw [h]
  omega

theorem address_byte_eq (channel : Int) :
    address_byte channel = 0x03 ||| ((channel % 64).toNat <<< 2) ∧
    address_byte channel < 256 := by
  unfold address_byte
  rw [and_63_uchar]
  have hb : (channel % 64).toNat < 64 := by omega
  have h3 : EA ||| CR = 3 := by decide
  rw [h3]
  constructor
  · apply Nat.mod_eq_of_lt
    rw [Nat.or_comm, Nat.shiftLeft_eq]
    have := Nat.mul_add_lt_is_or (i := 2) (b := 3) (by norm_num) (channel % 64).toNat
    rw [Nat.mul_comm] at this
    rw [← this]; omega
  · exact Nat.mod_lt _ (by norm_num)

theorem length_field_length (count : Int) :
    (length_field count).length = 1 ∨ (length_field count).length = 2 := by
  unfold length_field
  split_ifs <;> simp

theorem write_serial_full (sink : Sink) (hsink : ∀ k n, sink k n = (n : Int)) (st : Mux)
    (buf : List Nat) (n : Nat) :
    write_serial sink st buf n =
      ({ st with wire := st.wire ++ buf.take n, writes := st.writes + 1 }, (n : Int)) := by
  unfold write_serial
  simp [hsink, List.take_take]

theorem write_frame_full (sink : Sink) (hsink : ∀ k n, sink k n = (n : Int))
    (channel : Int) (input : List Nat) (count : Int) (type : Nat) (st : Mux)
    (h0 : 0 ≤ min st.max_frame_size count) :
    (write_frame sink channel input count type st).2 = min st.max_frame_size count ∧
    (write_frame sink channel input count type st).1.wire =
      st.wire ++ (frame_header channel type (min st.max_frame_size count)
        ++ input.take (min st.max_frame_size count).toNat
        ++ frame_trailer channel type (min st.max_frame_size count)) := by
  unfold write_frame write_trailer
  simp only [write_serial_full sink hsink]
  by_cases hpos : min st.max_frame_size count > 0
  · have hc : min st.max_frame_size count
        = (((min st.max_frame_size count).toNat : Nat) : Int) := by omega
    simp [hpos, ← hc, frame_trailer]
  · have hz : min st.max_frame_size count = 0 := by omega
    simp [hpos, hz, frame_trailer]


theorem write_frame_emits_aux (sink : Sink) (hsink : ∀ k n, sink k n = (n : Int))
    (channel : Int) (input : List Nat) (count : Int) (type : Nat) (st : Mux)
    (hmin : 0 ≤ min st.max_frame_size count) (htype : type < 256) :
    (write_frame sink channel input count type st).2 = min st.max_frame_size count ∧
    (write_frame sink channel input count type st).1.wire =
      st.wire ++
        ([0xF9, 0x03 ||| ((channel % 64).toNat <<< 2), type]
          ++ length_field (min st.max_frame_size count)
          ++ input.take (min st.max_frame_size count).toNat
          ++ [make_fcs ([0x03 ||| ((channel % 64).toNat <<< 2), type]
                ++ length_field (min st.max_frame_size count)), 0xF9]) := by
  obtain ⟨hret, hwire⟩ := write_frame_full sink hsink channel input count type st hmin
  refine ⟨hret, ?_⟩
  rw [hwire]
  simp [frame_header, frame_trailer, Nat.mod_eq_of_lt (make_fcs_lt _),
    Nat.mod_eq_of_lt htype, (address_byte_eq channel).1, F_FLAG]

/-- C1: when the sink accepts every write in full, `write_frame` with
`count ≥ 0` and `max_frame_size ≥ 0` appends to the wire exactly the flag 0xF9,
the address byte `0x03 | ((channel mod 64) << 2)`, the control byte `type`, the
one- or two-byte length field, the first `n = min(max_frame_size, count)` bytes
of `input`, the FCS `make_fcs` of the address, control and length bytes, and
the flag 0xF9; it returns `n`. -/
theorem write_frame_emits_frame (sink : Sink) (channel : Int) (input : List Nat)
    (count : Int) (type : Nat) (st : Mux)
    (hsink : ∀ k n, sink k n = (n : Int))
    (hcount : 0 ≤ count) (hmax : 0 ≤ st.max_frame_size)
    (htype : type < 256) (hinput : count ≤ (input.length : Int)) :
    (write_frame sink channel input count type st).2 = min st.max_frame_size count ∧
    (write_frame sink channel input count type st).1.wire =
      st.wire ++
        ([0xF9, 0x03 ||| ((channel % 64).toNat <<< 2), type]
          ++ length_field (min st.max_frame_size count)
          ++ input.take (min st.max_frame_size count).toNat
          ++ [make_fcs ([0x03 ||| ((channel % 64).toNat <<< 2), type]
                ++ length_field (min st.max_frame_size count)), 0xF9]) ∧
    ((length_field (min st.max_frame_size count)).length = 1 ∨
      (length_field (min st.max_frame_size count)).length = 2) ∧
    (input.take (min st.max_frame_size count).toNat).length
      = (min st.max_frame_size count).toNat ∧
    0x03 ||| ((channel % 64).toNat <<< 2) < 256 ∧
    make_fcs ([0x03 ||| ((channel % 64).toNat <<< 2), type]
      ++ length_field (min st.max_frame_size count)) < 256 := by
  have hn0 : 0 ≤ min st.max_frame_size count := le_min hmax hcount
  have hnle : min st.max_frame_size count ≤ (input.length : Int) :=
    le_trans (min_le_right _ _) hinput
  obtain ⟨hret, hwire⟩ :=
    write_frame_emits_aux sink hsink channel input count type st hn0 htype
  refine ⟨hret, hwire, length_field_length _, ?_, ?_, make_fcs_lt _⟩
  · rw [List.length_take]; omega
  · rw [← (address_byte_eq channel).1]; exact (address_byte_eq channel).2

/-- C1 at a concrete input: three bytes sent as a UIH on channel 1 with
`max_frame_size = 31`. -/
theorem write_frame_emits_frame_witness :
    (write_frame full_sink 1 [0x41, 0x54, 0x0D] 3 UIH st0).2 = 3 ∧
    (write_frame full_sink 1 [0x41, 0x54, 0x0D] 3 UIH st0).1.wire =
      [0xF9, 0x07, 0xEF, 0x07, 0x41, 0x54, 0x0D, 0xD3, 0xF9] :=
  have h := write_frame_emits_frame full_sink 1 [0x41, 0x54, 0x0D] 3 UIH st0
    (fun _ _ => rfl) (by decide) (by decide) (by decide) (by decide)
  ⟨h.1, h.2.1⟩

theorem and_one_eq_mod (x : Nat) : x &&& 1 = x % 2 := Nat.and_one_is_mod x

theorem and_32640_shr (n : Nat) : (32640 &&& n) >>> 7 = (n >>> 7) &&& 255 := by
  apply Nat.eq_of_testBit_eq
  intro j
  have h : (32640 : Nat) = 255 <<< 7 := by decide
  rw [h]
  simp only [Nat.testBit_shiftRight, Nat.testBit_and, Nat.testBit_shiftLeft]
  have : 7 + j - 7 = j := by omega
  simp [this, Bool.and_comm]

theorem or_one_shl (n : Nat) : 1 ||| (n <<< 1) = 2 * n + 1 := by
  rw [Nat.or_comm, Nat.shiftLeft_eq]
  have := Nat.mul_add_lt_is_or (i := 1) (b := 1) (by norm_num) n
  norm_num at this
  rw [Nat.mul_comm, ← this]

theorem length_field_short (n : Nat) (h : n ≤ 127) :
    length_field (n : Int) = [(n <<< 1) ||| 1] ∧ ((n <<< 1) ||| 1) = 2 * n + 1 := by
  have h1 := or_one_shl n
  unfold length_field
  have hn : ¬ ((n : Int) > 127) := by omega
  have h0 : (0 : Int) ≤ (n : Int) := by omega
  simp only [hn, h0, if_true, if_false, Int.toNat_ofNat]
  rw [Nat.or_comm] at h1
  rw [Nat.or_comm 1, h1]
  refine ⟨?_, rfl⟩
  rw [Nat.mod_eq_of_lt (by omega)]

theorem length_field_long (n : Nat) (h : 128 ≤ n) (h2 : n ≤ 32767) :
    length_field (n : Int) = [2 * (n % 128), n / 128] := by
  unfold length_field
  have hn : (n : Int) > 127 := by omega
  simp only [hn, if_true, Int.toNat_ofNat]
  have ha : 127 &&& n = n % 128 := by
    rw [Nat.and_comm]
    have h := Nat.and_pow_two_sub_one_eq_mod n 7
    norm_num at h
    exact h
  have hb : (32640 &&& n) >>> 7 = n / 128 := by
    rw [and_32640_shr]
    have h := Nat.and_pow_two_sub_one_eq_mod (n >>> 7) 8
    norm_num at h
    rw [h, Nat.shiftRight_eq_div_pow]
    norm_num
    omega
  rw [ha, hb, Nat.shiftLeft_eq]
  have : n / 128 < 256 := by omega
  rw [Nat.mod_eq_of_lt (by omega), Nat.mod_eq_of_lt this]
  norm_num
  omega

theorem long_field_decodes (n : Nat) :
    (2 * (n % 128)) &&& 1 = 0 ∧ ((2 * (n % 128)) >>> 1) ||| ((n / 128) <<< 7) = n := by
  constructor
  · rw [and_one_eq_mod]; omega
  · rw [Nat.shiftRight_eq_div_pow, Nat.shiftLeft_eq, Nat.or_comm]
    have := Nat.mul_add_lt_is_or (i := 7) (b := n % 128) (Nat.mod_lt _ (by norm_num)) (n / 128)
    norm_num at this
    have e : 2 * (n % 128) / 2 ^ 1 = n % 128 := by omega
    rw [e, Nat.mul_comm, ← this]
    omega

theorem decode_length_field (n : Nat) (h2 : n ≤ 32767) (rest : List Nat) :
    decode_length (length_field (n : Int) ++ rest) = some (n, rest) := by
  by_cases h : n ≤ 127
  · obtain ⟨e1, e2⟩ := length_field_short n h
    rw [e1, e2]
    have hb : (2 * n + 1) &&& 1 = 1 := by rw [and_one_eq_mod]; omega
    have hs : (2 * n + 1) >>> 1 = n := by rw [Nat.shiftRight_eq_div_pow]; omega
    simp [decode_length, hb, hs]
  · rw [length_field_long n (by omega) h2]
    obtain ⟨hb, hs⟩ := long_field_decodes n
    simp [decode_length, hb, hs]

/-- C2: for every emitted payload length `n = min(max_frame_size, count)` with
`0 ≤ n ≤ 32767`, the length field that `write_frame` puts on the wire decodes,
by the spec's rule, to the number of payload bytes that follow it: for
`n ≤ 127` it is the single byte `(n << 1) | 1`, for `n ≥ 128` it is two bytes
`LEN, LEN_EXT` with bit 0 of `LEN` clear and `(LEN >> 1) | (LEN_EXT << 7) = n`;
the lengths 0, 1, 127 and 128 decode to themselves. -/
theorem write_frame_length_field_decodes (sink : Sink) (channel : Int) (input : List Nat)
    (count : Int) (type : Nat) (st : Mux)
    (hsink : ∀ k n, sink k n = (n : Int))
    (hinput : count ≤ (input.length : Int))
    (h0 : 0 ≤ min st.max_frame_size count) (h1 : min st.max_frame_size count ≤ 32767) :
    (write_frame sink channel input count type st).1.wire =
      st.wire ++ ([F_FLAG, address_byte channel, type % 256]
        ++ (length_field (min st.max_frame_size count)
          ++ (input.take (min st.max_frame_size count).toNat
            ++ frame_trailer channel type (min st.max_frame_size count)))) ∧
    (input.take (min st.max_frame_size count).toNat).length
      = (min st.max_frame_size count).toNat ∧
    decode_length (length_field (min st.max_frame_size count)
        ++ (input.take (min st.max_frame_size count).toNat
          ++ frame_trailer channel type (min st.max_frame_size count)))
      = some ((min st.max_frame_size count).toNat,
          input.take (min st.max_frame_size count).toNat
            ++ frame_trailer channel type (min st.max_frame_size count)) ∧
    (min st.max_frame_size count ≤ 127 →
      length_field (min st.max_frame_size count)
        = [((min st.max_frame_size count).toNat <<< 1) ||| 1] ∧
      (((min st.max_frame_size count).toNat <<< 1) ||| 1) &&& 1 = 1 ∧
      ((((min st.max_frame_size count).toNat <<< 1) ||| 1) >>> 1)
        = (min st.max_frame_size count).toNat) ∧
    (128 ≤ min st.max_frame_size count →
      ∃ len len_ext, length_field (min st.max_frame_size count) = [len, len_ext] ∧
        len < 256 ∧ len_ext < 256 ∧ len &&& 1 = 0 ∧
        (len >>> 1) ||| (len_ext <<< 7) = (min st.max_frame_size count).toNat) ∧
    decode_length (length_field 0) = some (0, []) ∧
    decode_length (length_field 1) = some (1, []) ∧
    decode_length (length_field 127) = some (127, []) ∧
    decode_length (length_field 128) = some (128, []) := by
  have hw := (write_frame_full sink hsink channel input count type st h0).2
  obtain ⟨n, hn⟩ : ∃ n : Nat, min st.max_frame_size count = (n : Int) :=
    ⟨(min st.max_frame_size count).toNat, by omega⟩
  have hle : min st.max_frame_size count ≤ count := min_le_right _ _
  rw [hn] at hw h1 hle ⊢
  simp only [Int.toNat_ofNat]
  have hn2 : n ≤ 32767 := by omega
  refine ⟨?_, ?_, decode_length_field n hn2 _, ?_, ?_, by decide, by decide, by decide,
    by decide⟩
  · rw [hw]; simp [frame_header]
  · rw [List.length_take]; omega
  · intro h
    obtain ⟨e1, e2⟩ := length_field_short n (by omega)
    refine ⟨e1, ?_, ?_⟩
    · rw [e2, and_one_eq_mod]; omega
    · rw [e2, Nat.shiftRight_eq_div_pow]; omega
  · intro h
    obtain ⟨hb, hs⟩ := long_field_decodes n
    exact ⟨2 * (n % 128), n / 128, length_field_long n (by omega) hn2, by omega, by omega,
      hb, hs⟩

/-- C2 at a concrete input: 200 bytes sent with `max_frame_size = 130`; the
field is the two bytes 0x04 0x01. -/
theorem write_frame_length_field_decodes_witness :
    decode_length (length_field (min (130 : Int) 200)
        ++ ((List.replicate 200 7).take (min (130 : Int) 200).toNat
          ++ frame_trailer 1 UIH (min (130 : Int) 200)))
      = some ((min (130 : Int) 200).toNat,
          (List.replicate 200 7).take (min (130 : Int) 200).toNat
            ++ frame_trailer 1 UIH (min (130 : Int) 200)) :=
  (write_frame_length_field_decodes full_sink 1 (List.replicate 200 7) 200 UIH
    { st0 with max_frame_size := 130 } (fun _ _ => rfl) (by rw [List.length_replicate]; decide) (by decide)
    (by decide)).2.2.1

/-- C3, refuted as stated: with a sink that accepts the prefix write in full and
nothing of the payload write, `write_frame(1, "A", 1, UIH)` has a short write
and returns 0, yet the header F9 07 EF 03 is on the wire with no FCS and no
closing flag after it (the whole frame is F9 07 EF 03 41 D4 F9). -/
theorem write_frame_leaves_open_frame :
    short_write first_only_sink 1 1 UIH st0 ∧
    (write_frame first_only_sink 1 [0x41] 1 UIH st0).2 = 0 ∧
    (write_frame first_only_sink 1 [0x41] 1 UIH st0).1.wire = [0xF9, 0x07, 0xEF, 0x03] ∧
    whole_frame 1 [0x41] 1 UIH st0 = [0xF9, 0x07, 0xEF, 0x03, 0x41, 0xD4, 0xF9] ∧
    header_without_trailer first_only_sink 1 [0x41] 1 UIH st0 := by
  refine ⟨?_, by decide, by decide, by decide, ?_⟩
  · right; exact ⟨by decide, Or.inl (by decide)⟩
  · unfold header_without_trailer
    decide

theorem frame_header_length (channel : Int) (type : Nat) (count : Int) :
    (frame_header channel type count).length = 4 ∨
    (frame_header channel type count).length = 5 := by
  unfold frame_header
  rcases length_field_length count with h | h <;> simp [h]

/-- After a short write `write_frame` returns 0 and the bytes that reached the
sink are a proper prefix of the frame. -/
theorem write_frame_short_proper (sink : Sink) (channel : Int) (input : List Nat)
    (count : Int) (type : Nat) (st : Mux)
    (hinput : count ≤ (input.length : Int))
    (hshort : short_write sink channel count type st) :
    (write_frame sink channel input count type st).2 = 0 ∧
    ∃ k, k < (whole_frame channel input count type st).length ∧
      (write_frame sink channel input count type st).1.wire
        = st.wire ++ (whole_frame channel input count type st).take k := by
  unfold short_write at hshort
  unfold whole_frame
  generalize hn : min st.max_frame_size count = n at hshort ⊢
  have hnle : n ≤ (input.length : Int) := by
    rw [← hn]; exact le_trans (min_le_right _ _) hinput
  generalize hpre : frame_header channel type n = pre at hshort ⊢
  have hpl : pre.length = 4 ∨ pre.length = 5 := by
    rw [← hpre]; exact frame_header_length _ _ _
  have hpost : (frame_trailer channel type n).length = 2 := by simp [frame_trailer]
  generalize hpo : frame_trailer channel type n = post at hpost ⊢
  have hpay : (input.take n.toNat).length = n.toNat := by
    rw [List.length_take]; omega
  rcases hshort with h | ⟨h0, h | h | h⟩
  · -- the prefix write is short
    refine ⟨?_, (sink st.writes pre.length).toNat, ?_, ?_⟩
    · unfold write_frame
      simp only [hn, hpre, write_serial]
      have : sink st.writes pre.length ≠ (pre.length : Int) := by omega
      simp [this]
    · simp only [List.length_append]; omega
    · unfold write_frame
      simp only [hn, hpre, write_serial]
      have : sink st.writes pre.length ≠ (pre.length : Int) := by omega
      simp only [this, ne_eq, not_false_eq_true, if_true]
      have hk : (sink st.writes pre.length).toNat ≤ pre.length := by omega
      rw [List.append_assoc, List.take_append_of_le_length hk, List.take_take]
      simp [hk]
  · -- the payload write is short
    obtain ⟨hpos, hc⟩ := h
    have hne : n ≠ sink (st.writes + 1) n.toNat := by omega
    refine ⟨?_, pre.length + (sink (st.writes + 1) n.toNat).toNat, ?_, ?_⟩
    · unfold write_frame
      simp [hn, hpre, write_serial, h0, hpos, hne]
    · simp only [List.length_append]; omega
    · unfold write_frame
      simp only [hn, hpre, write_serial, h0]
      simp only [ne_eq, not_true_eq_false, if_false, hpos, gt_iff_lt, if_true, hne,
        not_false_eq_true, List.take_take]
      have hk : (sink (st.writes + 1) n.toNat).toNat ≤ (input.take n.toNat).length := by
        omega
      rw [List.append_assoc pre, List.take_append, List.take_append_of_le_length hk,
        List.take_take]
      simp [List.take_take]
  · -- the postfix write is short, after a payload
    obtain ⟨hpos, hc, h2⟩ := h
    have hne : sink (st.writes + 2) 2 ≠ 2 := by omega
    refine ⟨?_, pre.length + n.toNat + (sink (st.writes + 2) 2).toNat, ?_, ?_⟩
    · unfold write_frame write_trailer
      simp [hn, hpre, write_serial, h0, hpos, hc, hne]
    · simp only [List.length_append]; omega
    · unfold write_frame write_trailer
      simp only [hn, hpre, hpo, write_serial, h0, hc]
      simp only [ne_eq, not_true_eq_false, if_false, hpos, gt_iff_lt, if_true, hne,
        not_false_eq_true]
      have e : pre.length + n.toNat = (pre ++ input.take n.toNat).length := by
        simp only [List.length_append, hpay]
      have hk : n.toNat ≤ (input.take n.toNat).length := by omega
      rw [e, List.take_append]
      simp [List.take_take, hpost, Nat.add_assoc]
  · -- the postfix write is short, no payload
    obtain ⟨hpos, h2⟩ := h
    have hne : sink (st.writes + 1) 2 ≠ 2 := by omega
    have hnp : ¬ (n > 0) := by omega
    have hz : n.toNat = 0 := by omega
    refine ⟨?_, pre.length + (sink (st.writes + 1) 2).toNat, ?_, ?_⟩
    · unfold write_frame write_trailer
      simp [hn, hpre, write_serial, h0, hnp, hne]
    · simp only [List.length_append]; omega
    · unfold write_frame write_trailer
      simp only [hn, hpre, hpo, write_serial, h0]
      simp only [ne_eq, not_true_eq_false, if_false, hnp, hne, not_false_eq_true, if_true]
      simp [hz, List.take_append, List.take_take, hpost]

/-- Short header write: `write_frame` returns 0 after one write and the accepted
part of the header is on the wire. -/
theorem write_frame_short_header (sink : Sink) (channel : Int) (input : List Nat)
    (count : Int) (type : Nat) (st : Mux)
    (h0 : sink st.writes (frame_header channel type (min st.max_frame_size count)).length
      < (frame_header channel type (min st.max_frame_size count)).length) :
    (write_frame sink channel input count type st).2 = 0 ∧
    (write_frame sink channel input count type st).1.wire
      = st.wire ++ (frame_header channel type (min st.max_frame_size count)).take
          (sink st.writes
            (frame_header channel type (min st.max_frame_size count)).length).toNat ∧
    (write_frame sink channel input count type st).1.writes = st.writes + 1 := by
  generalize hn : min st.max_frame_size count = n at h0 ⊢
  generalize hpre : frame_header channel type n = pre at h0 ⊢
  have hne : sink st.writes pre.length ≠ (pre.length : Int) := by omega
  have hk : (sink st.writes pre.length).toNat ≤ pre.length := by omega
  unfold write_frame
  simp only [hn, hpre, write_serial, hne, ne_eq, not_false_eq_true, if_true, List.take_take]
  refine ⟨trivial, ?_, trivial⟩
  rw [Nat.min_eq_left hk]

/-- Short payload write: `write_frame` returns 0 after two writes; the whole header
and the accepted part of the payload are on the wire. -/
theorem write_frame_short_payload (sink : Sink) (channel : Int) (input : List Nat)
    (count : Int) (type : Nat) (st : Mux)
    (h0 : sink st.writes (frame_header channel type (min st.max_frame_size count)).length
      = (frame_header channel type (min st.max_frame_size count)).length)
    (hpos : 0 < min st.max_frame_size count)
    (h1 : sink (st.writes + 1) (min st.max_frame_size count).toNat
      < min st.max_frame_size count) :
    (write_frame sink channel input count type st).2 = 0 ∧
    (write_frame sink channel input count type st).1.wire
      = st.wire ++ (frame_header channel type (min st.max_frame_size count)
          ++ (input.take (min st.max_frame_size count).toNat).take
              (sink (st.writes + 1) (min st.max_frame_size count).toNat).toNat) ∧
    (write_frame sink channel input count type st).1.writes = st.writes + 2 := by
  generalize hn : min st.max_frame_size count = n at h0 hpos h1 ⊢
  generalize hpre : frame_header channel type n = pre at h0 ⊢
  have hne : n ≠ sink (st.writes + 1) n.toNat := by omega
  unfold write_frame
  simp only [hn, hpre, write_serial, h0, ne_eq, not_true_eq_false, if_false, hpos, gt_iff_lt,
    if_true, hne, not_false_eq_true, List.take_take, Nat.min_self, List.take_length]
  refine ⟨trivial, ?_, trivial⟩
  simp [List.take_take]

/-- Short trailer write after a payload: `write_frame` returns 0 after three writes;
header, payload and the accepted part of the trailer are on the wire. -/
theorem write_frame_short_trailer (sink : Sink) (channel : Int) (input : List Nat)
    (count : Int) (type : Nat) (st : Mux)
    (h0 : sink st.writes (frame_header channel type (min st.max_frame_size count)).length
      = (frame_header channel type (min st.max_frame_size count)).length)
    (hpos : 0 < min st.max_frame_size count)
    (h1 : sink (st.writes + 1) (min st.max_frame_size count).toNat
      = min st.max_frame_size count)
    (h2 : sink (st.writes + 2) 2 < 2) :
    (write_frame sink channel input count type st).2 = 0 ∧
    (write_frame sink channel input count type st).1.wire
      = st.wire ++ (frame_header channel type (min st.max_frame_size count)
          ++ input.take (min st.max_frame_size count).toNat
          ++ (frame_trailer channel type (min st.max_frame_size count)).take
              (sink (st.writes + 2) 2).toNat) ∧
    (write_frame sink channel input count type st).1.writes = st.writes + 3 := by
  generalize hn : min st.max_frame_size count = n at h0 hpos h1 h2 ⊢
  generalize hpre : frame_header channel type n = pre at h0 ⊢
  have hpost : (frame_trailer channel type n).length = 2 := by simp [frame_trailer]
  generalize hpo : frame_trailer channel type n = post at hpost ⊢
  have hne : sink (st.writes + 2) 2 ≠ 2 := by omega
  have hk : (sink (st.writes + 2) 2).toNat ≤ 2 := by omega
  have hnn : (n.toNat : Int) = n := by omega
  unfold write_frame write_trailer
  simp only [hn, hpre, hpo, write_serial, h0, h1, ne_eq, not_true_eq_false, if_false, hpos,
    gt_iff_lt, if_true, hne, not_false_eq_true, List.take_take]
  refine ⟨trivial, ?_, trivial⟩
  simp [List.take_take, hnn, Nat.min_eq_left hk, Nat.add_assoc]

/-- Short trailer write of a frame without payload: `write_frame` returns 0 after
two writes; the header and the accepted part of the trailer are on the wire. -/
theorem write_frame_short_trailer_empty (sink : Sink) (channel : Int) (input : List Nat)
    (count : Int) (type : Nat) (st : Mux)
    (h0 : sink st.writes (frame_header channel type (min st.max_frame_size count)).length
      = (frame_header channel type (min st.max_frame_size count)).length)
    (hpos : min st.max_frame_size count ≤ 0)
    (h2 : sink (st.writes + 1) 2 < 2) :
    (write_frame sink channel input count type st).2 = 0 ∧
    (write_frame sink channel input count type st).1.wire
      = st.wire ++ (frame_header channel type (min st.max_frame_size count)
          ++ (frame_trailer channel type (min st.max_frame_size count)).take
              (sink (st.writes + 1) 2).toNat) ∧
    (write_frame sink channel input count type st).1.writes = st.writes + 2 := by
  generalize hn : min st.max_frame_size count = n at h0 hpos h2 ⊢
  generalize hpre : frame_header channel type n = pre at h0 ⊢
  have hpost : (frame_trailer channel type n).length = 2 := by simp [frame_trailer]
  generalize hpo : frame_trailer channel type n = post at hpost ⊢
  have hne : sink (st.writes + 1) 2 ≠ 2 := by omega
  have hnp : ¬ (n > 0) := by omega
  have hk : (sink (st.writes + 1) 2).toNat ≤ 2 := by omega
  unfold write_frame write_trailer
  simp only [hn, hpre, hpo, write_serial, h0, ne_eq, not_true_eq_false, if_false, hnp, hne,
    not_false_eq_true, if_true, List.take_take]
  refine ⟨trivial, ?_, trivial⟩
  simp [List.take_take, Nat.min_eq_left hk]

/-- A header whose write completed stays on the wire after a short write, with no
whole frame behind it. -/
theorem write_frame_short_keeps_header (sink : Sink) (channel : Int) (input : List Nat)
    (count : Int) (type : Nat) (st : Mux)
    (hinput : count ≤ (input.length : Int))
    (hshort : short_write sink channel count type st)
    (h0 : sink st.writes (frame_header channel type (min st.max_frame_size count)).length
      = (frame_header channel type (min st.max_frame_size count)).length) :
    header_without_trailer sink channel input count type st := by
  unfold header_without_trailer whole_frame
  unfold short_write at hshort
  have hB := write_frame_short_payload sink channel input count type st h0
  have hC := write_frame_short_trailer sink channel input count type st h0
  have hD := write_frame_short_trailer_empty sink channel input count type st h0
  generalize write_frame sink channel input count type st = r at hB hC hD ⊢
  have hmin := min_le_right st.max_frame_size count
  generalize hn : min st.max_frame_size count = n at hshort hB hC hD h0 hmin ⊢
  have hnle : n ≤ (input.length : Int) := by omega
  have hpost : (frame_trailer channel type n).length = 2 := by simp [frame_trailer]
  generalize hpre : frame_header channel type n = pre at hshort hB hC hD h0 ⊢
  generalize hpo : frame_trailer channel type n = post at hB hC hD hpost ⊢
  rcases hshort with h | ⟨_, h | h | h⟩
  · omega
  · obtain ⟨_, hw, _⟩ := hB h.1 h.2
    rw [hw, List.drop_left]
    refine ⟨List.prefix_append _ _, fun hp => ?_⟩
    have hl := hp.length_le
    simp only [List.length_append, List.length_take, hpost] at hl
    omega
  · obtain ⟨_, hw, _⟩ := hC h.1 h.2.1 h.2.2
    rw [hw, List.drop_left]
    refine ⟨?_, fun hp => ?_⟩
    · rw [List.append_assoc]; exact List.prefix_append _ _
    · have hl := hp.length_le
      simp only [List.length_append, List.length_take, hpost] at hl
      omega
  · obtain ⟨_, hw, _⟩ := hD h.1 h.2
    rw [hw, List.drop_left]
    refine ⟨List.prefix_append _ _, fun hp => ?_⟩
    have hl := hp.length_le
    simp only [List.length_append, List.length_take, hpost] at hl
    omega

/-- After a short write the wire is unchanged exactly when the header write
accepted no byte. -/
theorem write_frame_short_wire_unchanged_iff (sink : Sink) (channel : Int)
    (input : List Nat) (count : Int) (type : Nat) (st : Mux)
    (hshort : short_write sink channel count type st) :
    (write_frame sink channel input count type st).1.wire = st.wire ↔
      sink st.writes (frame_header channel type (min st.max_frame_size count)).length ≤ 0 := by
  unfold short_write at hshort
  have hA := write_frame_short_header sink channel input count type st
  have hB := write_frame_short_payload sink channel input count type st
  have hC := write_frame_short_trailer sink channel input count type st
  have hD := write_frame_short_trailer_empty sink channel input count type st
  have hlen := frame_header_length channel type (min st.max_frame_size count)
  generalize write_frame sink channel input count type st = r at hA hB hC hD ⊢
  generalize hn : min st.max_frame_size count = n at hshort hA hB hC hD hlen ⊢
  generalize hpre : frame_header channel type n = pre at hshort hA hB hC hD hlen ⊢
  generalize frame_trailer channel type n = post at hC hD
  rcases hshort with h | ⟨h0, h | h | h⟩
  · obtain ⟨_, hw, _⟩ := hA h
    rw [hw]
    constructor
    · intro he
      have hl := congrArg List.length he
      simp only [List.length_append, List.length_take] at hl
      omega
    · intro hc
      have hz : (sink st.writes pre.length).toNat = 0 := by omega
      rw [hz]; simp
  · obtain ⟨_, hw, _⟩ := hB h0 h.1 h.2
    rw [hw]
    constructor
    · intro he
      have hl := congrArg List.length he
      simp only [List.length_append, List.length_take] at hl
      omega
    · intro hc; omega
  · obtain ⟨_, hw, _⟩ := hC h0 h.1 h.2.1 h.2.2
    rw [hw]
    constructor
    · intro he
      have hl := congrArg List.length he
      simp only [List.length_append, List.length_take] at hl
      omega
    · intro hc; omega
  · obtain ⟨_, hw, _⟩ := hD h0 h.1 h.2
    rw [hw]
    constructor
    · intro he
      have hl := congrArg List.length he
      simp only [List.length_append, List.length_take] at hl
      omega
    · intro hc; omega

/-- C3 (amended): whenever one of the three writes of `write_frame` (header, payload, FCS and
closing flag) accepts fewer bytes than requested, `write_frame` returns 0 and stops at that
write. The bytes that reached the sink are a proper prefix of the frame, and they are exactly
the writes completed before the short one followed by the accepted part of the short one: a
short header write leaves the accepted part of the header after one write; a short payload
write leaves the whole header and the accepted part of the payload after two writes; a short
trailer write leaves the header, the payload and the accepted part of the trailer. A header
whose write completed stays on the wire without a whole frame behind it, and the wire is
unchanged exactly when the header write accepted no byte. -/
theorem write_frame_short_write (sink : Sink) (channel : Int) (input : List Nat)
    (count : Int) (type : Nat) (st : Mux)
    (hinput : count ≤ (input.length : Int))
    (hshort : short_write sink channel count type st) :
    (write_frame sink channel input count type st).2 = 0 ∧
    (∃ k, k < (whole_frame channel input count type st).length ∧
      (write_frame sink channel input count type st).1.wire
        = st.wire ++ (whole_frame channel input count type st).take k) ∧
    (sink st.writes (frame_header channel type (min st.max_frame_size count)).length
        < (frame_header channel type (min st.max_frame_size count)).length →
      (write_frame sink channel input count type st).1.wire
        = st.wire ++ (frame_header channel type (min st.max_frame_size count)).take
            (sink st.writes
              (frame_header channel type (min st.max_frame_size count)).length).toNat ∧
      (write_frame sink channel input count type st).1.writes = st.writes + 1) ∧
    (sink st.writes (frame_header channel type (min st.max_frame_size count)).length
        = (frame_header channel type (min st.max_frame_size count)).length →
      0 < min st.max_frame_size count →
      sink (st.writes + 1) (min st.max_frame_size count).toNat
        < min st.max_frame_size count →
      (write_frame sink channel input count type st).1.wire
        = st.wire ++ (frame_header channel type (min st.max_frame_size count)
            ++ (input.take (min st.max_frame_size count).toNat).take
                (sink (st.writes + 1) (min st.max_frame_size count).toNat).toNat) ∧
      (write_frame sink channel input count type st).1.writes = st.writes + 2) ∧
    (sink st.writes (frame_header channel type (min st.max_frame_size count)).length
        = (frame_header channel type (min st.max_frame_size count)).length →
      0 < min st.max_frame_size count →
      sink (st.writes + 1) (min st.max_frame_size count).toNat
        = min st.max_frame_size count →
      sink (st.writes + 2) 2 < 2 →
      (write_frame sink channel input count type st).1.wire
        = st.wire ++ (frame_header channel type (min st.max_frame_size count)
            ++ input.take (min st.max_frame_size count).toNat
            ++ (frame_trailer channel type (min st.max_frame_size count)).take
                (sink (st.writes + 2) 2).toNat) ∧
      (write_frame sink channel input count type st).1.writes = st.writes + 3) ∧
    (sink st.writes (frame_header channel type (min st.max_frame_size count)).length
        = (frame_header channel type (min st.max_frame_size count)).length →
      min st.max_frame_size count ≤ 0 →
      sink (st.writes + 1) 2 < 2 →
      (write_frame sink channel input count type st).1.wire
        = st.wire ++ (frame_header channel type (min st.max_frame_size count)
            ++ (frame_trailer channel type (min st.max_frame_size count)).take
                (sink (st.writes + 1) 2).toNat) ∧
      (write_frame sink channel input count type st).1.writes = st.writes + 2) ∧
    (sink st.writes (frame_header channel type (min st.max_frame_size count)).length
        = (frame_header channel type (min st.max_frame_size count)).length →
      header_without_trailer sink channel input count type st) ∧
    ((write_frame sink channel input count type st).1.wire = st.wire ↔
      sink st.writes (frame_header channel type (min st.max_frame_size count)).length ≤ 0) :=
  ⟨(write_frame_short_proper sink channel input count type st hinput hshort).1,
   (write_frame_short_proper sink channel input count type st hinput hshort).2,
   fun h => (write_frame_short_header sink channel input count type st h).2,
   fun h0 hp h1 => (write_frame_short_payload sink channel input count type st h0 hp h1).2,
   fun h0 hp h1 h2 =>
     (write_frame_short_trailer sink channel input count type st h0 hp h1 h2).2,
   fun h0 hp h2 =>
     (write_frame_short_trailer_empty sink channel input count type st h0 hp h2).2,
   write_frame_short_keeps_header sink channel input count type st hinput hshort,
   write_frame_short_wire_unchanged_iff sink channel input count type st hshort⟩

/-- C3 amended, at a concrete input: the sink accepts the header write of
`write_frame(1, "A", 1, UIH)` and nothing of the payload write; the call returns 0
after two writes with the header F9 07 EF 03 left on the wire. -/
theorem write_frame_short_write_witness :
    (1 : Int) ≤ (([0x41] : List Nat).length : Int) ∧
    short_write first_only_sink 1 1 UIH st0 ∧
    (write_frame first_only_sink 1 [0x41] 1 UIH st0).2 = 0 ∧
    (write_frame first_only_sink 1 [0x41] 1 UIH st0).1.wire = [0xF9, 0x07, 0xEF, 0x03] ∧
    (write_frame first_only_sink 1 [0x41] 1 UIH st0).1.writes = 2 ∧
    header_without_trailer first_only_sink 1 [0x41] 1 UIH st0 ∧
    (write_frame first_only_sink 1 [0x41] 1 UIH st0).1.wire ≠ st0.wire :=
  have h := write_frame_short_write first_only_sink 1 [0x41] 1 UIH st0 (by decide)
    (Or.inr ⟨by decide, Or.inl (by decide)⟩)
  ⟨by decide, Or.inr ⟨by decide, Or.inl (by decide)⟩, h.1,
   (h.2.2.2.1 (by decide) (by decide) (by decide)).1.trans (by decide),
   (h.2.2.2.1 (by decide) (by decide) (by decide)).2.trans (by decide),
   h.2.2.2.2.2.2.1 (by decide),
   fun he => absurd (h.2.2.2.2.2.2.2.1 he) (by decide)⟩

/-! ## The link state machine -/

theorem write_frame_keeps (sink : Sink) (channel : Int) (input : List Nat) (count : Int)
    (type : Nat) (st : Mux) :
    (write_frame sink channel input count type st).1 =
      { st with wire := (write_frame sink channel input count type st).1.wire,
                writes := (write_frame sink channel input count type st).1.writes } := by
  unfold write_frame write_trailer write_serial
  simp only
  split_ifs <;> rfl

theorem write_frame_cstatus (sink : Sink) (channel : Int) (input : List Nat) (count : Int)
    (type : Nat) (st : Mux) :
    (write_frame sink channel input count type st).1.cstatus = st.cstatus := by
  rw [write_frame_keeps]

theorem write_frame_ussp (sink : Sink) (channel : Int) (input : List Nat) (count : Int)
    (type : Nat) (st : Mux) :
    (write_frame sink channel input count type st).1.ussp = st.ussp := by
  rw [write_frame_keeps]

theorem write_frame_terminate (sink : Sink) (channel : Int) (input : List Nat) (count : Int)
    (type : Nat) (st : Mux) :
    (write_frame sink channel input count type st).1.terminate = st.terminate := by
  rw [write_frame_keeps]

theorem write_frame_terminateCount (sink : Sink) (channel : Int) (input : List Nat)
    (count : Int) (type : Nat) (st : Mux) :
    (write_frame sink channel input count type st).1.terminateCount = st.terminateCount := by
  rw [write_frame_keeps]

theorem write_frame_restart (sink : Sink) (channel : Int) (input : List Nat) (count : Int)
    (type : Nat) (st : Mux) :
    (write_frame sink channel input count type st).1.restart = st.restart := by
  rw [write_frame_keeps]

theorem write_frame_faultTolerant (sink : Sink) (channel : Int) (input : List Nat)
    (count : Int) (type : Nat) (st : Mux) :
    (write_frame sink channel input count type st).1.faultTolerant = st.faultTolerant := by
  rw [write_frame_keeps]

/-- The serial side of `write_frame` does not look at the channel table or at
the supervisor flags: it depends on the wire, the write counter and
`max_frame_size` only. -/
theorem write_frame_serial_congr (sink : Sink) (channel : Int) (input : List Nat)
    (count : Int) (type : Nat) (st st1 : Mux)
    (hw : st1.wire = st.wire) (hk : st1.writes = st.writes)
    (hm : st1.max_frame_size = st.max_frame_size) :
    (write_frame sink channel input count type st1).1.wire
      = (write_frame sink channel input count type st).1.wire ∧
    (write_frame sink channel input count type st1).1.writes
      = (write_frame sink channel input count type st).1.writes := by
  unfold write_frame write_trailer write_serial
  simp only [hw, hk, hm]
  split_ifs <;> exact ⟨rfl, rfl⟩

/-- An empty frame on a sink that accepts everything: six bytes. -/
theorem write_frame_empty_full (sink : Sink) (hsink : ∀ k n, sink k n = (n : Int))
    (channel : Nat) (type : Nat) (htype : type < 256) (st : Mux)
    (hmax : 0 ≤ st.max_frame_size) :
    (write_frame sink (channel : Int) [] 0 type st).1.wire =
      st.wire ++ [0xF9, 0x03 ||| ((channel % 64) <<< 2), type, 0x01,
        make_fcs [0x03 ||| ((channel % 64) <<< 2), type, 0x01], 0xF9] := by
  have h := (write_frame_emits_aux sink hsink channel [] 0 type st (le_min hmax le_rfl) htype).2
  rw [h]
  have hz : min st.max_frame_size 0 = 0 := min_eq_right hmax
  have hc : ((channel : Int) % 64).toNat = channel % 64 := by omega
  rw [hz, hc]
  simp [length_field]

theorem extract_frames_single (sink : Sink) (frame : GSM0710_Frame) (st st1 : Mux)
    (h : extract_frames_one sink frame st = some st1) :
    extract_frames sink [frame] st = some (st1, 1) := by
  simp [extract_frames, h]

theorem set_opened_cstatus_same (st : Mux) (channel : Nat) (cs : Channel_Status) (v : Int)
    (h : channel < st.cstatus.length) :
    (set_opened st channel cs v).cstatus[channel]? = some { cs with opened := v } := by
  simp [set_opened, List.getElem?_set, h]

theorem set_opened_cstatus_other (st : Mux) (channel : Nat) (cs : Channel_Status) (v : Int)
    (c : Nat) (h : c ≠ channel) :
    (set_opened st channel cs v).cstatus[c]? = st.cstatus[c]? := by
  simp [set_opened, List.getElem?_set, Ne.symm h]

theorem extract_frames_one_sabm (sink : Sink) (frame : GSM0710_Frame) (st : Mux)
    (cs : Channel_Status)
    (hctl : and_not frame.control PF = SABM)
    (hcs : st.cstatus[frame.channel]? = some cs) :
    extract_frames_one sink frame st =
      some (write_frame sink frame.channel [] 0 (UA ||| PF)
        (set_opened st frame.channel cs 1)).1 := by
  unfold extract_frames_one
  simp [FRAME_IS, hctl, hcs, SABM, UI, UIH, UA, DM, DISC]

/-- C4: for every SABM frame (control with the P/F bit masked off equal to
0x2F) received on a channel within the channel table, whatever the state of the
channel, `extract_frames` marks the channel opened, sends exactly one frame, a
UA|PF (0x73) with empty payload on that channel, and leaves the other
channels and `terminate`, `terminateCount`, `restart` unchanged. -/
theorem extract_frames_sabm (sink : Sink) (frame : GSM0710_Frame) (st : Mux)
    (hctl : and_not frame.control PF = SABM)
    (hch : frame.channel < st.cstatus.length) :
    ∃ st1, extract_frames sink [frame] st = some (st1, 1) ∧
      (∃ cs, st.cstatus[frame.channel]? = some cs ∧
        st1.cstatus[frame.channel]? = some { cs with opened := 1 }) ∧
      (∀ c, c ≠ frame.channel → st1.cstatus[c]? = st.cstatus[c]?) ∧
      st1.terminate = st.terminate ∧ st1.terminateCount = st.terminateCount ∧
      st1.restart = st.restart ∧ st1.ussp = st.ussp ∧
      st1.wire = (write_frame sink frame.channel [] 0 0x73 st).1.wire ∧
      st1.writes = (write_frame sink frame.channel [] 0 0x73 st).1.writes ∧
      ((∀ k n, sink k n = (n : Int)) → 0 ≤ st.max_frame_size →
        st1.wire = st.wire ++ [0xF9, 0x03 ||| ((frame.channel % 64) <<< 2), 0x73, 0x01,
          make_fcs [0x03 ||| ((frame.channel % 64) <<< 2), 0x73, 0x01], 0xF9]) := by
  have hcs : st.cstatus[frame.channel]? = some (st.cstatus[frame.channel]) :=
    List.getElem?_eq_getElem hch
  have hone := extract_frames_one_sabm sink frame st _ hctl hcs
  have hser := write_frame_serial_congr sink frame.channel [] 0 (UA ||| PF) st
    (set_opened st frame.channel st.cstatus[frame.channel] 1) rfl rfl rfl
  have h73 : UA ||| PF = 0x73 := by decide
  rw [h73] at hser hone
  refine ⟨_, extract_frames_single sink frame st _ hone, ⟨_, hcs, ?_⟩, ?_, ?_, ?_, ?_, ?_,
    hser.1, hser.2, ?_⟩
  · rw [write_frame_cstatus]; exact set_opened_cstatus_same st _ _ _ hch
  · intro c hc
    rw [write_frame_cstatus]; exact set_opened_cstatus_other st _ _ _ c hc
  · rw [write_frame_terminate]; rfl
  · rw [write_frame_terminateCount]; rfl
  · rw [write_frame_restart]; rfl
  · rw [write_frame_ussp]; rfl
  · intro hsink hmax
    rw [hser.1]
    exact write_frame_empty_full sink hsink frame.channel 0x73 (by decide) st hmax

/-- C4 at a concrete input: SABM|PF on channel 2 of the closed three-channel
table, with a sink that accepts everything. -/
theorem extract_frames_sabm_witness :
    ∃ st1, extract_frames full_sink [⟨2, 0x3F, []⟩] st0 = some (st1, 1) ∧
      st1.cstatus[2]? = some ⟨1, 0x8D⟩ ∧
      st1.wire = [0xF9, 0x0B, 0x73, 0x01, 0x92, 0xF9] := by
  obtain ⟨st1, h, ⟨cs, hcs, hcs1⟩, -, -, -, -, -, -, -, hw⟩ :=
    extract_frames_sabm full_sink ⟨2, 0x3F, []⟩ st0 (by decide) (by decide)
  have e : cs = ⟨0, 0x8D⟩ := (Option.some.inj hcs).symm
  subst e
  exact ⟨st1, h, hcs1, (hw (fun _ _ => rfl) (by decide)).trans (by decide)⟩

theorem extract_frames_one_ua (sink : Sink) (frame : GSM0710_Frame) (st : Mux)
    (cs : Channel_Status)
    (hctl : and_not frame.control PF = UA)
    (hcs : st.cstatus[frame.channel]? = some cs)
    (hdata : 1 ≤ frame.channel) :
    extract_frames_one sink frame st =
      some (set_opened st frame.channel cs (if cs.opened = 1 then 0 else 1)) := by
  have hne : frame.channel ≠ 0 := by omega
  unfold extract_frames_one
  simp only [FRAME_IS, hctl, hcs]
  by_cases ho : cs.opened = 1 <;> simp [ho, hne, UI, UIH, UA]

/-- C5: for every UA frame (P/F set or not) received on a data channel
`c ≥ 1` within the channel table, `extract_frames` toggles the link state of
`c`: a channel that is not open (`opened ≠ 1`, so a CLOSED one) becomes OPEN, an
OPEN channel becomes CLOSED; no frame is sent and the other channels,
`terminate`, `terminateCount` and `restart` are unchanged. -/
theorem extract_frames_ua (sink : Sink) (frame : GSM0710_Frame) (st : Mux)
    (hctl : and_not frame.control PF = UA)
    (hdata : 1 ≤ frame.channel)
    (hch : frame.channel < st.cstatus.length) :
    ∃ st1 cs, extract_frames sink [frame] st = some (st1, 1) ∧
      st.cstatus[frame.channel]? = some cs ∧
      (cs.opened = 0 → st1.cstatus[frame.channel]? = some { cs with opened := 1 }) ∧
      (cs.opened = 1 → st1.cstatus[frame.channel]? = some { cs with opened := 0 }) ∧
      (∀ c, c ≠ frame.channel → st1.cstatus[c]? = st.cstatus[c]?) ∧
      st1.wire = st.wire ∧ st1.writes = st.writes ∧
      st1.terminate = st.terminate ∧ st1.terminateCount = st.terminateCount ∧
      st1.restart = st.restart ∧ st1.ussp = st.ussp := by
  have hcs : st.cstatus[frame.channel]? = some (st.cstatus[frame.channel]) :=
    List.getElem?_eq_getElem hch
  have hone := extract_frames_one_ua sink frame st _ hctl hcs hdata
  refine ⟨_, _, extract_frames_single sink frame st _ hone, hcs, ?_, ?_, ?_, rfl, rfl, rfl,
    rfl, rfl, rfl⟩
  · intro h0
    have h := set_opened_cstatus_same st frame.channel st.cstatus[frame.channel]
      (if st.cstatus[frame.channel].opened = 1 then 0 else 1) hch
    rw [h]; simp [h0]
  · intro h1
    have h := set_opened_cstatus_same st frame.channel st.cstatus[frame.channel]
      (if st.cstatus[frame.channel].opened = 1 then 0 else 1) hch
    rw [h]; simp [h1]
  · intro c hc
    exact set_opened_cstatus_other st _ _ _ c hc

/-- C5 at a concrete input: UA|PF on channel 1 of the closed three-channel
table opens channel 1 and sends nothing. -/
theorem extract_frames_ua_witness :
    ∃ st1, extract_frames full_sink [⟨1, 0x73, []⟩] st0 = some (st1, 1) ∧
      st1.cstatus[1]? = some ⟨1, 0x8D⟩ ∧ st1.wire = [] := by
  obtain ⟨st1, cs, h, hcs, h0, -, -, hw, -⟩ :=
    extract_frames_ua full_sink ⟨1, 0x73, []⟩ st0 (by decide) (by decide) (by decide)
  have e : cs = ⟨0, 0x8D⟩ := (Option.some.inj hcs).symm
  subst e
  exact ⟨st1, h, h0 rfl, hw⟩

theorem extract_frames_one_disc_open (sink : Sink) (frame : GSM0710_Frame) (st : Mux)
    (cs : Channel_Status)
    (hctl : and_not frame.control PF = DISC)
    (hcs : st.cstatus[frame.channel]? = some cs)
    (hopen : cs.opened ≠ 0) :
    extract_frames_one sink frame st =
      some (
        if frame.channel = 0 then
          if st.faultTolerant ≠ 0 then
            { (write_frame sink frame.channel [] 0 (UA ||| PF)
                (set_opened st frame.channel cs 0)).1 with restart := 1 }
          else
            { (write_frame sink frame.channel [] 0 (UA ||| PF)
                (set_opened st frame.channel cs 0)).1 with
              terminate := 1, terminateCount := -1 }
        else (write_frame sink frame.channel [] 0 (UA ||| PF)
          (set_opened st frame.channel cs 0)).1) := by
  unfold extract_frames_one
  simp only [FRAME_IS, hctl, hcs]
  have hft : ∀ c, (set_opened st c cs 0).faultTolerant = st.faultTolerant := fun _ => rfl
  by_cases hz : frame.channel = 0 <;> by_cases hf : st.faultTolerant = 0 <;>
    simp [hopen, hz, hf, hft, write_frame_faultTolerant, UI, UIH, UA, DM, DISC]

theorem extract_frames_one_disc_closed (sink : Sink) (frame : GSM0710_Frame) (st : Mux)
    (cs : Channel_Status)
    (hctl : and_not frame.control PF = DISC)
    (hcs : st.cstatus[frame.channel]? = some cs)
    (hclosed : cs.opened = 0) :
    extract_frames_one sink frame st =
      some (write_frame sink frame.channel [] 0 (DM ||| PF) st).1 := by
  unfold extract_frames_one
  simp [FRAME_IS, hctl, hcs, hclosed, UI, UIH, UA, DM, DISC]

/-- C6: for every DISC frame received on a channel `c` within the channel
table, `extract_frames` sends exactly one reply on `c` with empty payload,
UA|PF (0x73) if `c` was OPEN and DM|PF (0x1F) if `c` was CLOSED, and `c` is
CLOSED afterwards; when `c` was CLOSED the channel table, `terminate`,
`terminateCount` and `restart` are unchanged. -/
theorem extract_frames_disc (sink : Sink) (frame : GSM0710_Frame) (st : Mux)
    (hctl : and_not frame.control PF = DISC)
    (hch : frame.channel < st.cstatus.length) :
    ∃ st1 cs, extract_frames sink [frame] st = some (st1, 1) ∧
      st.cstatus[frame.channel]? = some cs ∧
      st1.cstatus[frame.channel]? = some { cs with opened := 0 } ∧
      (cs.opened ≠ 0 →
        st1.wire = (write_frame sink frame.channel [] 0 0x73 st).1.wire ∧
        st1.writes = (write_frame sink frame.channel [] 0 0x73 st).1.writes ∧
        ((∀ k n, sink k n = (n : Int)) → 0 ≤ st.max_frame_size →
          st1.wire = st.wire ++ [0xF9, 0x03 ||| ((frame.channel % 64) <<< 2), 0x73, 0x01,
            make_fcs [0x03 ||| ((frame.channel % 64) <<< 2), 0x73, 0x01], 0xF9])) ∧
      (cs.opened = 0 →
        st1.wire = (write_frame sink frame.channel [] 0 0x1F st).1.wire ∧
        st1.writes = (write_frame sink frame.channel [] 0 0x1F st).1.writes ∧
        ((∀ k n, sink k n = (n : Int)) → 0 ≤ st.max_frame_size →
          st1.wire = st.wire ++ [0xF9, 0x03 ||| ((frame.channel % 64) <<< 2), 0x1F, 0x01,
            make_fcs [0x03 ||| ((frame.channel % 64) <<< 2), 0x1F, 0x01], 0xF9]) ∧
        st1.cstatus = st.cstatus ∧ st1.terminate = st.terminate ∧
        st1.terminateCount = st.terminateCount ∧ st1.restart = st.restart ∧
        st1.ussp = st.ussp) := by
  have hcs : st.cstatus[frame.channel]? = some (st.cstatus[frame.channel]) :=
    List.getElem?_eq_getElem hch
  have h73 : UA ||| PF = 0x73 := by decide
  have h1F : DM ||| PF = 0x1F := by decide
  by_cases hopen : st.cstatus[frame.channel].opened = 0
  · -- the channel was CLOSED
    have hone := extract_frames_one_disc_closed sink frame st _ hctl hcs hopen
    rw [h1F] at hone
    refine ⟨_, _, extract_frames_single sink frame st _ hone, hcs, ?_,
      fun h => absurd hopen h, fun _ => ⟨rfl, rfl, ?_, ?_, ?_, ?_, ?_, ?_⟩⟩
    · rw [write_frame_cstatus, hcs, ← hopen]
    · intro hsink hmax
      exact write_frame_empty_full sink hsink frame.channel 0x1F (by decide) st hmax
    · rw [write_frame_cstatus]
    · rw [write_frame_terminate]
    · rw [write_frame_terminateCount]
    · rw [write_frame_restart]
    · rw [write_frame_ussp]
  · -- the channel was OPEN
    have hone := extract_frames_one_disc_open sink frame st _ hctl hcs hopen
    have hser := write_frame_serial_congr sink frame.channel [] 0 (UA ||| PF) st
      (set_opened st frame.channel st.cstatus[frame.channel] 0) rfl rfl rfl
    rw [h73] at hone hser
    have hcst : (write_frame sink frame.channel [] 0 0x73
        (set_opened st frame.channel st.cstatus[frame.channel] 0)).1.cstatus[frame.channel]?
          = some { st.cstatus[frame.channel] with opened := 0 } := by
      rw [write_frame_cstatus]; exact set_opened_cstatus_same st _ _ _ hch
    refine ⟨_, _, extract_frames_single sink frame st _ hone, hcs, ?_, fun _ => ⟨?_, ?_, ?_⟩,
      fun h => absurd h hopen⟩
    · split_ifs <;> exact hcst
    · split_ifs <;> exact hser.1
    · split_ifs <;> exact hser.2
    · intro hsink hmax
      have hw := write_frame_empty_full sink hsink frame.channel 0x73 (by decide) st hmax
      rw [← hw]
      split_ifs <;> exact hser.1

/-- C6 at a concrete input: DISC on the closed channel 1 is answered by
DM|PF. -/
theorem extract_frames_disc_witness :
    ∃ st1, extract_frames full_sink [⟨1, 0x53, []⟩] st0 = some (st1, 1) ∧
      st1.cstatus[1]? = some ⟨0, 0x8D⟩ ∧
      st1.wire = [0xF9, 0x07, 0x1F, 0x01, 0xF4, 0xF9] := by
  obtain ⟨st1, cs, h, hcs, hcs1, -, hclosed⟩ :=
    extract_frames_disc full_sink ⟨1, 0x53, []⟩ st0 (by decide) (by decide)
  have e : cs = ⟨0, 0x8D⟩ := (Option.some.inj hcs).symm
  subst e
  exact ⟨st1, h, hcs1,
    ((hclosed rfl).2.2.1 (fun _ _ => rfl) (by decide)).trans (by decide)⟩

theorem handle_command_cld (sink : Sink) (frame : GSM0710_Frame) (st : Mux)
    (rest : List Nat) (hdata : frame.data = 0xC3 :: rest) :
    handle_command sink frame st =
      some (acknowledge sink frame 0xC3
        (if st.faultTolerant ≠ 0 then { st with restart := 1 }
         else { st with terminate := 1, terminateCount := -1 })) := by
  unfold handle_command
  have h1 : (0xC3 : Nat) &&& CR = CR := by decide
  have h2 : and_not 0xC3 CR = C_CLD := by decide
  simp [GSM0710_Frame.data_length, hdata, h1, h2]

theorem extract_frames_one_information (sink : Sink) (frame : GSM0710_Frame) (st : Mux)
    (hctl : and_not frame.control PF = UI ∨ and_not frame.control PF = UIH) :
    extract_frames_one sink frame st =
      if frame.channel > 0 then
        ussp_send_data frame.data frame.data_length (frame.channel - 1) st
      else handle_command sink frame st := by
  unfold extract_frames_one
  rcases hctl with h | h <;> simp [FRAME_IS, h]

/-- C7: a remote close-down, that is a C_CLD command (type byte 0xC3) received
in a UI or UIH frame on DLC 0, or a DISC frame received on channel 0 while it
is OPEN, sets `restart` to 1 and leaves `terminate` and `terminateCount` alone
when `faultTolerant` is set, and sets `terminate` to 1 and `terminateCount` to
-1 and leaves `restart` alone when it is not; a DISC on an open data channel
`c ≥ 1` changes none of the three. -/
theorem remote_close_down (sink : Sink) (st : Mux) :
    (∀ frame rest,
      (and_not frame.control PF = UI ∨ and_not frame.control PF = UIH) →
      frame.channel = 0 → frame.data = 0xC3 :: rest →
      ∃ st1, extract_frames sink [frame] st = some (st1, 1) ∧
        (st.faultTolerant ≠ 0 → st1.restart = 1 ∧ st1.terminate = st.terminate ∧
          st1.terminateCount = st.terminateCount) ∧
        (st.faultTolerant = 0 → st1.terminate = 1 ∧ st1.terminateCount = -1 ∧
          st1.restart = st.restart)) ∧
    (∀ frame cs,
      and_not frame.control PF = DISC → frame.channel = 0 →
      st.cstatus[0]? = some cs → cs.opened ≠ 0 →
      ∃ st1, extract_frames sink [frame] st = some (st1, 1) ∧
        (st.faultTolerant ≠ 0 → st1.restart = 1 ∧ st1.terminate = st.terminate ∧
          st1.terminateCount = st.terminateCount) ∧
        (st.faultTolerant = 0 → st1.terminate = 1 ∧ st1.terminateCount = -1 ∧
          st1.restart = st.restart)) ∧
    (∀ frame cs,
      and_not frame.control PF = DISC → 1 ≤ frame.channel →
      st.cstatus[frame.channel]? = some cs → cs.opened ≠ 0 →
      ∃ st1, extract_frames sink [frame] st = some (st1, 1) ∧
        st1.restart = st.restart ∧ st1.terminate = st.terminate ∧
        st1.terminateCount = st.terminateCount) := by
  refine ⟨?_, ?_, ?_⟩
  · intro frame rest hctl hch hdata
    have hone : extract_frames_one sink frame st =
        some (acknowledge sink frame 0xC3
          (if st.faultTolerant ≠ 0 then { st with restart := 1 }
           else { st with terminate := 1, terminateCount := -1 })) := by
      rw [extract_frames_one_information sink frame st hctl, if_neg (by omega),
        handle_command_cld sink frame st rest hdata]
    refine ⟨_, extract_frames_single sink frame st _ hone, ?_, ?_⟩
    · intro hf
      simp only [acknowledge, hf, ne_eq, not_false_eq_true, if_true]
      exact ⟨by rw [write_frame_restart], by rw [write_frame_terminate],
        by rw [write_frame_terminateCount]⟩
    · intro hf
      simp only [acknowledge, hf, ne_eq, not_true_eq_false, if_false]
      exact ⟨by rw [write_frame_terminate], by rw [write_frame_terminateCount],
        by rw [write_frame_restart]⟩
  · intro frame cs hctl hch hcs hopen
    rw [← hch] at hcs
    have hone := extract_frames_one_disc_open sink frame st cs hctl hcs hopen
    refine ⟨_, extract_frames_single sink frame st _ hone, ?_, ?_⟩
    · intro hf
      simp only [hch, hf, ne_eq, not_false_eq_true, if_true]
      exact ⟨trivial, by rw [write_frame_terminate]; rfl,
        by rw [write_frame_terminateCount]; rfl⟩
    · intro hf
      simp only [hch, hf, ne_eq, not_true_eq_false, if_false, if_true]
      exact ⟨trivial, trivial, by rw [write_frame_restart]; rfl⟩
  · intro frame cs hctl hch hcs hopen
    have hone := extract_frames_one_disc_open sink frame st cs hctl hcs hopen
    have hne : frame.channel ≠ 0 := by omega
    rw [if_neg hne] at hone
    exact ⟨_, extract_frames_single sink frame st _ hone, by rw [write_frame_restart]; rfl,
      by rw [write_frame_terminate]; rfl, by rw [write_frame_terminateCount]; rfl⟩

/-- C7 at concrete inputs: C_CLD without fault tolerance, DISC on the open
channel 0 with fault tolerance, DISC on the open channel 2. -/
theorem remote_close_down_witness :
    (∃ st1, extract_frames full_sink [⟨0, 0xEF, [0xC3, 0x01]⟩] st0 = some (st1, 1) ∧
      st1.terminate = 1 ∧ st1.terminateCount = -1 ∧ st1.restart = 0) ∧
    (∃ st1, extract_frames full_sink [⟨0, 0x53, []⟩] st_open = some (st1, 1) ∧
      st1.restart = 1 ∧ st1.terminate = 0 ∧ st1.terminateCount = 2) ∧
    (∃ st1, extract_frames full_sink [⟨2, 0x53, []⟩] st_open = some (st1, 1) ∧
      st1.restart = 0 ∧ st1.terminate = 0 ∧ st1.terminateCount = 2) := by
  refine ⟨?_, ?_, ?_⟩
  · obtain ⟨st1, h, -, hno⟩ := (remote_close_down full_sink st0).1 ⟨0, 0xEF, [0xC3, 0x01]⟩
      [0x01] (Or.inr (by decide)) rfl rfl
    exact ⟨st1, h, hno rfl⟩
  · obtain ⟨st1, h, hft, -⟩ := (remote_close_down full_sink st_open).2.1 ⟨0, 0x53, []⟩
      ⟨1, 0x8D⟩ (by decide) rfl rfl (by decide)
    exact ⟨st1, h, hft (by decide)⟩
  · obtain ⟨st1, h, hk⟩ := (remote_close_down full_sink st_open).2.2 ⟨2, 0x53, []⟩
      ⟨1, 0x8D⟩ (by decide) (by decide) rfl (by decide)
    exact ⟨st1, h, hk⟩

theorem extract_frames_one_dm (sink : Sink) (frame : GSM0710_Frame) (st : Mux)
    (cs : Channel_Status)
    (hctl : and_not frame.control PF = DM)
    (hcs : st.cstatus[frame.channel]? = some cs) :
    extract_frames_one sink frame st =
      some (
        if cs.opened ≠ 0 then set_opened st frame.channel cs 0
        else if frame.channel = 0 then { st with terminate := 1, terminateCount := -1 }
        else st) := by
  unfold extract_frames_one
  simp only [FRAME_IS, hctl, hcs]
  by_cases ho : cs.opened = 0 <;> by_cases hz : frame.channel = 0 <;>
    simp [ho, hz, UI, UIH, UA, DM]

/-- C8: for every DM frame received on a channel `c` within the channel table,
`extract_frames` sends no frame and `c` is CLOSED afterwards; `terminate` is
requested (`terminate = 1`, `terminateCount = -1`) exactly when `c = 0` and
channel 0 was CLOSED, and in every other case `terminate`, `terminateCount`
and `restart` are unchanged. -/
theorem extract_frames_dm (sink : Sink) (frame : GSM0710_Frame) (st : Mux)
    (hctl : and_not frame.control PF = DM)
    (hch : frame.channel < st.cstatus.length) :
    ∃ st1 cs, extract_frames sink [frame] st = some (st1, 1) ∧
      st.cstatus[frame.channel]? = some cs ∧
      st1.wire = st.wire ∧ st1.writes = st.writes ∧
      st1.cstatus[frame.channel]? = some { cs with opened := 0 } ∧
      (∀ c, c ≠ frame.channel → st1.cstatus[c]? = st.cstatus[c]?) ∧
      (frame.channel = 0 ∧ cs.opened = 0 →
        st1.terminate = 1 ∧ st1.terminateCount = -1 ∧ st1.restart = st.restart) ∧
      (¬ (frame.channel = 0 ∧ cs.opened = 0) →
        st1.terminate = st.terminate ∧ st1.terminateCount = st.terminateCount ∧
        st1.restart = st.restart) := by
  obtain ⟨cs, hcs⟩ : ∃ cs, st.cstatus[frame.channel]? = some cs :=
    ⟨_, List.getElem?_eq_getElem hch⟩
  have hone := extract_frames_one_dm sink frame st cs hctl hcs
  by_cases ho : cs.opened = 0
  · have hno : ¬ (cs.opened ≠ 0) := fun h => h ho
    by_cases hz : frame.channel = 0
    · rw [if_neg hno, if_pos hz] at hone
      refine ⟨_, cs, extract_frames_single sink frame st _ hone, hcs, rfl, rfl, ?_,
        fun _ _ => rfl, fun _ => ⟨rfl, rfl, rfl⟩, fun h => absurd ⟨hz, ho⟩ h⟩
      show st.cstatus[frame.channel]? = some { cs with opened := 0 }
      rw [hcs, ← ho]
    · rw [if_neg hno, if_neg hz] at hone
      refine ⟨_, cs, extract_frames_single sink frame st _ hone, hcs, rfl, rfl, ?_,
        fun _ _ => rfl, fun h => absurd h.1 hz, fun _ => ⟨rfl, rfl, rfl⟩⟩
      rw [hcs, ← ho]
  · rw [if_pos ho] at hone
    exact ⟨_, cs, extract_frames_single sink frame st _ hone, hcs, rfl, rfl,
      set_opened_cstatus_same st _ _ _ hch,
      fun c hc => set_opened_cstatus_other st _ _ _ c hc,
      fun h => absurd h.2 ho, fun _ => ⟨rfl, rfl, rfl⟩⟩

/-- C8 at a concrete input: DM on the closed control channel requests
termination. -/
theorem extract_frames_dm_witness :
    ∃ st1, extract_frames full_sink [⟨0, 0x1F, []⟩] st0 = some (st1, 1) ∧
      st1.wire = [] ∧ st1.terminate = 1 ∧ st1.terminateCount = -1 := by
  obtain ⟨st1, cs, h, hcs, hw, -, -, -, ht, -⟩ :=
    extract_frames_dm full_sink ⟨0, 0x1F, []⟩ st0 (by decide) (by decide)
  have e : cs = ⟨0, 0x8D⟩ := (Option.some.inj hcs).symm
  subst e
  exact ⟨st1, h, hw, (ht ⟨rfl, rfl⟩).1, (ht ⟨rfl, rfl⟩).2.1⟩

/-- C9: for every UI or UIH frame (P/F set or not) received on a channel
`c ≥ 1` that has an endpoint, whatever the state of the channel,
`extract_frames` hands exactly the payload of the frame (`data_length` bytes,
unchanged and in order) to endpoint `c - 1`, sends no frame on the serial link,
and leaves the channel table, `terminate`, `terminateCount` and `restart`
unchanged. -/
theorem extract_frames_information (sink : Sink) (frame : GSM0710_Frame) (st : Mux)
    (hctl : and_not frame.control PF = UI ∨ and_not frame.control PF = UIH)
    (hdata : 1 ≤ frame.channel)
    (hport : frame.channel - 1 < st.ussp.length) :
    ∃ st1 old, extract_frames sink [frame] st = some (st1, 1) ∧
      st.ussp[frame.channel - 1]? = some old ∧
      st1.ussp[frame.channel - 1]? = some (old ++ frame.data) ∧
      frame.data.length = frame.data_length ∧
      (∀ p, p ≠ frame.channel - 1 → st1.ussp[p]? = st.ussp[p]?) ∧
      st1.wire = st.wire ∧ st1.writes = st.writes ∧ st1.cstatus = st.cstatus ∧
      st1.terminate = st.terminate ∧ st1.terminateCount = st.terminateCount ∧
      st1.restart = st.restart := by
  obtain ⟨old, hold⟩ : ∃ old, st.ussp[frame.channel - 1]? = some old :=
    ⟨_, List.getElem?_eq_getElem hport⟩
  have hone : extract_frames_one sink frame st =
      some { st with ussp := st.ussp.set (frame.channel - 1) (old ++ frame.data) } := by
    rw [extract_frames_one_information sink frame st hctl, if_pos (by omega)]
    simp [ussp_send_data, hold, GSM0710_Frame.data_length]
  refine ⟨_, old, extract_frames_single sink frame st _ hone, hold, ?_, rfl, ?_, rfl, rfl,
    rfl, rfl, rfl, rfl⟩
  · simp [List.getElem?_set, hport]
  · intro p hp
    simp [List.getElem?_set, Ne.symm hp]

/-- C9 at a concrete input: a UIH with three payload bytes on the closed
channel 2 reaches endpoint 1 after the bytes it already holds. -/
theorem extract_frames_information_witness :
    ∃ st1, extract_frames full_sink [⟨2, 0xEF, [0x0D, 0x0A, 0x3E]⟩]
        { st_open with cstatus := st0.cstatus } = some (st1, 1) ∧
      st1.ussp[1]? = some [0x4F, 0x4B, 0x0D, 0x0A, 0x3E] ∧ st1.wire = [] ∧
      st1.cstatus = st0.cstatus := by
  obtain ⟨st1, old, h, hold, hnew, -, -, hw, -, hc, -⟩ :=
    extract_frames_information full_sink ⟨2, 0xEF, [0x0D, 0x0A, 0x3E]⟩
      { st_open with cstatus := st0.cstatus } (Or.inr (by decide)) (by decide) (by decide)
  have e : old = [0x4F, 0x4B] := (Option.some.inj hold).symm
  subst e
  exact ⟨st1, h, hnew, hw, hc⟩

/-- What the default branch of `handle_command` does for a command whose type
is the single byte `t` (EA and CR set) and is none of C_CLD, C_TEST, C_MSC: one
UIH on DLC 0 with the three bytes C_NSC, 0x00, `t`, and no acknowledgement. -/
theorem handle_command_nsc_reply (sink : Sink) (frame : GSM0710_Frame) (st : Mux)
    (t : Nat) (rest : List Nat) (hdata : frame.data = t :: rest)
    (hea : t &&& EA = EA) (hcr : t &&& CR = CR)
    (h1 : and_not t CR ≠ C_CLD) (h2 : and_not t CR ≠ C_TEST) (h3 : and_not t CR ≠ C_MSC) :
    handle_command sink frame st = some (write_frame sink 0 [C_NSC, 0x00, t] 3 UIH st).1 := by
  have hne : ¬ (t &&& EA = 0) := by rw [hea]; decide
  have hb : (EA &&& 2) % 256 = 0 := by decide
  unfold handle_command
  simp [GSM0710_Frame.data_length, hdata, hcr, h1, h2, h3, skip_type, hne, copy_type, hb]

/-- C10, the code at the failing input: for the control-channel payload
`[0x43, 0x01]` in a UIH on DLC 0, `handle_command` sends one UIH frame on DLC 0
whose payload is 0x11 0x00 0x43: the second byte, computed as
`EA & ((127 & type_length) << 1)`, is 0x00 and not the length byte 0x03. -/
theorem handle_command_nsc_length_byte :
    EA &&& ((127 &&& 1) <<< 1) = 0 ∧
    handle_command full_sink ⟨0, 0xEF, [0x43, 0x01]⟩ st0 =
      some (write_frame full_sink 0 [0x11, 0x00, 0x43] 3 0xEF st0).1 ∧
    extract_frames full_sink [⟨0, 0xEF, [0x43, 0x01]⟩] st0 =
      some ({ st0 with wire := [0xF9, 0x03, 0xEF, 0x07, 0x11, 0x00, 0x43, 0x11, 0xF9],
                       writes := 3 }, 1) := by
  refine ⟨by decide, by decide, by decide⟩

/-! ## Supported control-channel commands -/

theorem acknowledge_cstatus (sink : Sink) (frame : GSM0710_Frame) (type : Nat) (st : Mux) :
    (acknowledge sink frame type st).cstatus = st.cstatus := by
  unfold acknowledge; rw [write_frame_cstatus]

/-- For a supported command `handle_command` takes its optional action and
acknowledges: the state before the acknowledgement differs from the given one
in `restart`, `terminate` and `terminateCount` at most. -/
theorem handle_command_supported (sink : Sink) (frame : GSM0710_Frame) (st : Mux)
    (t : Nat) (rest : List Nat) (hdata : frame.data = t :: rest)
    (hcr : t &&& CR = CR)
    (hsup : and_not t CR = C_CLD ∨ and_not t CR = C_TEST ∨ and_not t CR = C_MSC) :
    ∃ st1, handle_command sink frame st = some (acknowledge sink frame t st1) ∧
      st1.cstatus = st.cstatus ∧ st1.ussp = st.ussp ∧ st1.wire = st.wire ∧
      st1.writes = st.writes ∧ st1.max_frame_size = st.max_frame_size ∧
      st1.faultTolerant = st.faultTolerant := by
  have hlen : frame.data_length = rest.length + 1 := by
    simp [GSM0710_Frame.data_length, hdata]
  rcases hsup with h | h | h
  · refine ⟨if st.faultTolerant ≠ 0 then { st with restart := 1 }
        else { st with terminate := 1, terminateCount := -1 }, ?_, ?_⟩
    · unfold handle_command
      simp [hlen, hdata, hcr, h]
    · split_ifs <;> exact ⟨rfl, rfl, rfl, rfl, rfl, rfl⟩
  · refine ⟨st, ?_, rfl, rfl, rfl, rfl, rfl, rfl⟩
    have hne : C_TEST ≠ C_CLD := by decide
    unfold handle_command
    simp [hlen, hdata, hcr, h, hne]
  · refine ⟨st, ?_, rfl, rfl, rfl, rfl, rfl, rfl⟩
    have hne : C_MSC ≠ C_CLD := by decide
    have hne2 : C_MSC ≠ C_TEST := by decide
    unfold handle_command
    simp only [hlen, hdata, hcr, h, hne, hne2, if_false, if_true, gt_iff_lt,
      Nat.zero_lt_succ, List.getElem?_cons_zero]
    split_ifs with hi
    · have hlen2 : (t :: rest).length = rest.length + 1 := rfl
      rw [List.getElem?_eq_getElem (by rw [hlen2]; omega),
        List.getElem?_eq_getElem (by rw [hlen2]; omega)]
    · rfl
/-- C11: for every control-channel payload of length at most `max_frame_size`
whose first byte has the CR bit set and is C_CLD, C_TEST or C_MSC once CR is
masked off, `handle_command` sends exactly one frame, a UIH on DLC 0 whose
payload is the received payload with the CR bit of byte 0 cleared and the
other bytes unchanged; the channel table, so the opened flag of every channel,
is left unchanged. -/
theorem handle_command_acknowledges (sink : Sink) (frame : GSM0710_Frame) (st : Mux)
    (t : Nat) (rest : List Nat) (hdata : frame.data = t :: rest)
    (hcr : t &&& CR = CR)
    (hsup : and_not t CR = C_CLD ∨ and_not t CR = C_TEST ∨ and_not t CR = C_MSC)
    (hlen : (frame.data_length : Int) ≤ st.max_frame_size) :
    ∃ st1, handle_command sink frame st = some st1 ∧
      st1.cstatus = st.cstatus ∧
      st1.wire
        = (write_frame sink 0 (and_not t CR :: rest) frame.data_length UIH st).1.wire ∧
      st1.writes
        = (write_frame sink 0 (and_not t CR :: rest) frame.data_length UIH st).1.writes ∧
      ((∀ k n, sink k n = (n : Int)) →
        st1.wire = st.wire ++ ([0xF9, 0x03, 0xEF] ++ length_field frame.data_length
          ++ (and_not t CR :: rest)
          ++ [make_fcs ([0x03, 0xEF] ++ length_field frame.data_length), 0xF9])) := by
  obtain ⟨st1, hres, hcs, -, hw, hk, hm, -⟩ :=
    handle_command_supported sink frame st t rest hdata hcr hsup
  have hset : frame.data.set 0 (and_not t CR) = and_not t CR :: rest := by
    rw [hdata]; rfl
  have hser := write_frame_serial_congr sink 0 (and_not t CR :: rest) frame.data_length UIH
    st st1 hw hk hm
  refine ⟨_, hres, ?_, ?_, ?_, ?_⟩
  · rw [acknowledge_cstatus, hcs]
  · unfold acknowledge; rw [hset]; exact hser.1
  · unfold acknowledge; rw [hset]; exact hser.2
  · intro hsink
    unfold acknowledge
    rw [hset, hser.1]
    have hdl : frame.data_length = rest.length + 1 := by
      simp [GSM0710_Frame.data_length, hdata]
    have hmin : min st.max_frame_size (frame.data_length : Int) = frame.data_length :=
      min_eq_right hlen
    have h := (write_frame_emits_aux sink hsink 0 (and_not t CR :: rest) frame.data_length
      UIH st (by rw [hmin]; omega) (by decide)).2
    rw [h, hmin]
    simp [hdl, UIH]

/-- C11 at a concrete input: a C_MSC with channel field 0x0C and signals 0x8D
is acknowledged with CR cleared and channel 3 is still open. -/
theorem handle_command_acknowledges_witness :
    ∃ st1, handle_command full_sink ⟨0, 0xEF, [0xE3, 0x05, 0x0C, 0x8D]⟩ st4_open = some st1 ∧
      st1.cstatus[3]? = some ⟨1, 0x8D⟩ ∧
      st1.wire = [0xF9, 0x03, 0xEF, 0x09, 0xE1, 0x05, 0x0C, 0x8D, 0xFB, 0xF9] := by
  obtain ⟨st1, h, hcs, -, -, hw⟩ := handle_command_acknowledges full_sink
    ⟨0, 0xEF, [0xE3, 0x05, 0x0C, 0x8D]⟩ st4_open 0xE3 [0x05, 0x0C, 0x8D] rfl (by decide)
    (Or.inr (Or.inr (by decide))) (by decide)
  exact ⟨st1, h, by rw [hcs]; rfl, (hw (fun _ _ => rfl)).trans (by decide)⟩

/-- C12, refuted as stated: a well-formed modem-status command for channel 3
(type 0xE3, length byte 0x05, channel field 0x0F, signal byte 0x0D) is
processed and acknowledged, and the cached `v24_signals` of channel 3 is still
its initial value 0x8D, not the received 0x0D. -/
theorem handle_command_msc_not_recorded :
    (0x0F &&& 252) >>> 2 = 3 ∧
    ∃ st1, handle_command full_sink ⟨0, 0xEF, [0xE3, 0x05, 0x0F, 0x0D]⟩ st4_open = some st1 ∧
      st1.cstatus[3]? = some ⟨1, 0x8D⟩ ∧
      (st1.cstatus[3]?).map Channel_Status.v24_signals ≠ some 0x0D := by
  refine ⟨by decide, (write_frame full_sink 0 [0xE1, 0x05, 0x0F, 0x0D] 4 UIH st4_open).1,
    by decide, by decide, by decide⟩

/-- C12, amended: after `handle_command` has processed a modem-status command
(C_MSC with CR set, a length byte, a channel field naming channel `c` in its
high 6 bits, then a signal byte `s`), the signal byte has been read but not
stored: the whole channel table, and with it the cached `v24_signals` of
channel `c`, is what it was before; the command is acknowledged with CR
cleared. -/
theorem handle_command_msc_keeps_table (sink : Sink) (frame : GSM0710_Frame) (st : Mux)
    (t len chan s : Nat) (tail : List Nat)
    (hdata : frame.data = t :: len :: chan :: s :: tail)
    (hcr : t &&& CR = CR) (hmsc : and_not t CR = C_MSC) :
    ∃ st1, handle_command sink frame st = some st1 ∧
      st1.cstatus = st.cstatus ∧
      st1.cstatus[(chan &&& 252) >>> 2]? = st.cstatus[(chan &&& 252) >>> 2]? ∧
      st1.wire = (write_frame sink 0 (and_not t CR :: len :: chan :: s :: tail)
        frame.data_length UIH st).1.wire ∧
      st1.writes = (write_frame sink 0 (and_not t CR :: len :: chan :: s :: tail)
        frame.data_length UIH st).1.writes := by
  obtain ⟨st1, hres, hcs, -, hw, hk, hm, -⟩ :=
    handle_command_supported sink frame st t _ hdata hcr (Or.inr (Or.inr hmsc))
  have hset : frame.data.set 0 (and_not t CR) = and_not t CR :: len :: chan :: s :: tail := by
    rw [hdata]; rfl
  have hser := write_frame_serial_congr sink 0 (and_not t CR :: len :: chan :: s :: tail)
    frame.data_length UIH st st1 hw hk hm
  have hc : (acknowledge sink frame t st1).cstatus = st.cstatus := by
    rw [acknowledge_cstatus, hcs]
  refine ⟨_, hres, hc, by rw [hc], ?_, ?_⟩
  · unfold acknowledge; rw [hset]; exact hser.1
  · unfold acknowledge; rw [hset]; exact hser.2

/-- C12 amended, at a concrete input: the modem-status command for channel 3
with signal byte 0x0D leaves the row of channel 3 as it was. -/
theorem handle_command_msc_keeps_table_witness :
    ∃ st1, handle_command full_sink ⟨0, 0xEF, [0xE3, 0x05, 0x0F, 0x0D]⟩ st4_open = some st1 ∧
      st1.cstatus[3]? = some ⟨1, 0x8D⟩ := by
  obtain ⟨st1, h, -, hc, -⟩ := handle_command_msc_keeps_table full_sink
    ⟨0, 0xEF, [0xE3, 0x05, 0x0F, 0x0D]⟩ st4_open 0xE3 0x05 0x0F 0x0D [] rfl (by decide)
    (by decide)
  exact ⟨st1, h, hc⟩

/-! ## Framing of endpoint data -/

theorem write_frame_max_frame_size (sink : Sink) (channel : Int) (input : List Nat)
    (count : Int) (type : Nat) (st : Mux) :
    (write_frame sink channel input count type st).1.max_frame_size = st.max_frame_size := by
  rw [write_frame_keeps]

/-- Cutting the next chunk off the bytes that are still to be framed. -/
theorem chunk_split (buf : List Nat) (W N L : Nat) (h : W + N ≤ L) :
    (buf.drop W).take N ++ (buf.take L).drop (W + N) = (buf.take L).drop W := by
  have h1 : ((buf.take L).drop W).take N = (buf.drop W).take N := by
    rw [List.drop_take, List.take_take]
    congr 1
    omega
  have h2 : ((buf.take L).drop W).drop N = (buf.take L).drop (W + N) := by
    rw [List.drop_drop, Nat.add_comm]
  rw [← h1, ← h2, List.take_append_drop]

theorem ussp_recv_data_loop_full (sink : Sink) (hsink : ∀ k n, sink k n = (n : Int))
    (buf : List Nat) (len : Int) (port : Int) (hlen : len ≤ (buf.length : Int)) :
    ∀ (fuel : Nat) (written i : Int) (st : Mux),
      1 ≤ st.max_frame_size → 0 ≤ written → written ≤ len →
      (len - written).toNat ≤ fuel → i < WRITE_RETRIES →
      ∃ (chunks : List (List Nat)) (st1 : Mux),
        ussp_recv_data_loop sink buf len port fuel written i st = some (st1, len, i) ∧
        st1.wire = st.wire ++ (chunks.map (encode_frame (port + 1) UIH)).flatten ∧
        chunks.flatten = (buf.take len.toNat).drop written.toNat ∧
        ∀ c ∈ chunks, 1 ≤ c.length ∧ (c.length : Int) ≤ st.max_frame_size := by
  intro fuel
  induction fuel with
  | zero =>
    intro written i st _ h0 hle hfuel _
    have hw : written = len := by omega
    refine ⟨[], st, ?_, by simp, ?_, by simp⟩
    · simp [ussp_recv_data_loop, hw]
    · rw [hw]; simp
  | succ fuel ih =>
    intro written i st hm h0 hle hfuel hi
    by_cases hw : written = len
    · refine ⟨[], st, ?_, by simp, ?_, by simp⟩
      · simp [ussp_recv_data_loop, hw]
      · rw [hw]; simp
    · -- one more frame
      have hmin1 : 1 ≤ min st.max_frame_size (len - written) := le_min hm (by omega)
      have hminle : min st.max_frame_size (len - written) ≤ len - written := min_le_right _ _
      have hminm : min st.max_frame_size (len - written) ≤ st.max_frame_size :=
        min_le_left _ _
      obtain ⟨hret, hwire⟩ := write_frame_full sink hsink (port + 1)
        (buf.drop written.toNat) (len - written) UIH st (by omega)
      generalize hn : min st.max_frame_size (len - written) = n at hmin1 hminle hminm hret hwire
      have hclen : ((buf.drop written.toNat).take n.toNat).length = n.toNat := by
        rw [List.length_take, List.length_drop]; omega
      obtain ⟨chunks, st1, hloop, hw1, hjoin, hall⟩ :=
        ih (written + n) i (write_frame sink (port + 1) (buf.drop written.toNat)
          (len - written) UIH st).1
          (by rw [write_frame_max_frame_size]; exact hm) (by omega) (by omega) (by omega) hi
      refine ⟨(buf.drop written.toNat).take n.toNat :: chunks, st1, ?_, ?_, ?_, ?_⟩
      · have hne : ¬ (n = 0) := by omega
        rw [ussp_recv_data_loop]
        simp only [hw, hi, ne_eq, not_false_eq_true, and_self, if_true, hret, hne, if_false]
        exact hloop
      · have e : (((buf.drop written.toNat).take n.toNat).length : Int) = n := by
          rw [hclen]; omega
        have henc : encode_frame (port + 1) UIH ((buf.drop written.toNat).take n.toNat)
            = frame_header (port + 1) UIH n ++ (buf.drop written.toNat).take n.toNat
              ++ frame_trailer (port + 1) UIH n := by
          unfold encode_frame; rw [e]
        rw [hw1, hwire, List.map_cons, List.flatten_cons, henc]
        simp only [List.append_assoc]
      · have e : (written + n).toNat = written.toNat + n.toNat := by omega
        rw [e] at hjoin
        rw [List.flatten_cons, hjoin]
        exact chunk_split buf written.toNat n.toNat len.toNat (by omega)
      · intro c hc
        rw [write_frame_max_frame_size] at hall
        rcases List.mem_cons.mp hc with rfl | hc
        · rw [hclen]; constructor <;> omega
        · exact hall c hc

theorem encode_frame_head (channel : Nat) (type : Nat) (htype : type < 256)
    (payload : List Nat) :
    (encode_frame (channel : Int) type payload).take 3
      = [0xF9, 0x03 ||| ((channel % 64) <<< 2), type] := by
  have hc : ((channel : Int) % 64).toNat = channel % 64 := by omega
  simp [encode_frame, frame_header, F_FLAG, (address_byte_eq channel).1, hc,
    Nat.mod_eq_of_lt htype]

/-- C13: for every endpoint index `p`, every `max_frame_size ≥ 1` and every
input of `len ≥ 1` bytes, when the serial sink accepts every write,
`ussp_recv_data(buf, len, p)` returns after putting on the wire a sequence of
whole frames, each a UIH (control 0xEF) on channel `p + 1` carrying between 1
and `max_frame_size` payload bytes, whose payloads concatenated in emission
order are exactly the `len` input bytes. -/
theorem ussp_recv_data_frames (sink : Sink) (fuel : Nat) (buf : List Nat) (len : Int)
    (p : Nat) (st : Mux)
    (hsink : ∀ k n, sink k n = (n : Int))
    (hmax : 1 ≤ st.max_frame_size) (hlen : 1 ≤ len)
    (hbuf : len ≤ (buf.length : Int)) (hfuel : len.toNat ≤ fuel) :
    ∃ (chunks : List (List Nat)) (st1 : Mux),
      ussp_recv_data sink fuel buf len (p : Int) st = some (st1, 0) ∧
      st1.wire = st.wire ++ (chunks.map (encode_frame ((p : Int) + 1) UIH)).flatten ∧
      chunks.flatten = buf.take len.toNat ∧
      (∀ c ∈ chunks, 1 ≤ c.length ∧ (c.length : Int) ≤ st.max_frame_size) ∧
      (∀ c ∈ chunks, (encode_frame ((p : Int) + 1) UIH c).take 3
        = [0xF9, 0x03 ||| (((p + 1) % 64) <<< 2), 0xEF]) := by
  obtain ⟨chunks, st1, hloop, hw, hjoin, hall⟩ :=
    ussp_recv_data_loop_full sink hsink buf len p hbuf fuel 0 0 st hmax le_rfl (by omega)
      (by simpa using hfuel) (by decide)
  refine ⟨chunks, st1, ?_, hw, by simpa using hjoin, hall, ?_⟩
  · simp [ussp_recv_data, hloop]
  · intro c _
    exact encode_frame_head (p + 1) UIH (by decide) c

/-- C13 at a concrete input: seven bytes from endpoint 0 with
`max_frame_size = 3`. -/
theorem ussp_recv_data_frames_witness :
    ∃ (chunks : List (List Nat)) (st1 : Mux),
      ussp_recv_data full_sink 7 [1, 2, 3, 4, 5, 6, 7] 7 ((0 : Nat) : Int)
        { st0 with max_frame_size := 3 } = some (st1, 0) ∧
      st1.wire = ({ st0 with max_frame_size := 3 } : Mux).wire
        ++ (chunks.map (encode_frame (((0 : Nat) : Int) + 1) UIH)).flatten ∧
      chunks.flatten = [1, 2, 3, 4, 5, 6, 7].take (7 : Int).toNat ∧
      (∀ c ∈ chunks, 1 ≤ c.length ∧
        (c.length : Int) ≤ ({ st0 with max_frame_size := 3 } : Mux).max_frame_size) ∧
      (∀ c ∈ chunks, (encode_frame (((0 : Nat) : Int) + 1) UIH c).take 3
        = [0xF9, 0x03 ||| (((0 + 1) % 64) <<< 2), 0xEF]) :=
  ussp_recv_data_frames full_sink 7 [1, 2, 3, 4, 5, 6, 7] 7 0 { st0 with max_frame_size := 3 }
    (fun _ _ => rfl) (by decide) (by decide) (by decide) (by decide)

theorem ussp_recv_data_returns (sink : Sink) (fuel : Nat) (buf : List Nat) (len : Int)
    (port : Int) (st st1 : Mux) (r : Int)
    (h : ussp_recv_data sink fuel buf len port st = some (st1, r)) : r = 0 := by
  unfold ussp_recv_data at h
  split at h
  · cases h
  · cases h; rfl

/-- C14, the code at the failing input: with a sink on which every write
fails, `ussp_recv_data(buf, 1, 0)` makes five attempts, its cursor `written` is
still 0 when the loop stops, no byte has reached the wire, and it returns 0
although one byte was not framed. -/
theorem ussp_recv_data_drops_unframed :
    ussp_recv_data_loop dead_sink [0x41] 1 0 5 0 0 st0
      = some ({ st0 with writes := 5 }, 0, 5) ∧
    ussp_recv_data dead_sink 5 [0x41] 1 0 st0 = some ({ st0 with writes := 5 }, 0) ∧
    ({ st0 with writes := 5 } : Mux).wire = [] := by
  refine ⟨by decide, by decide, rfl⟩

/-- C15, the code at the failing input: in the three bytes `OOK` the needle
`OK` occurs, and `findInBuf` returns 0, because after the mismatch at the
second `O` it restarts the needle without looking at that byte again. -/
theorem findInBuf_misses_after_repeat :
    findInBuf [0x4F, 0x4F, 0x4B] 3 [0x4F, 0x4B] = 0 ∧
    [0x4F, 0x4B] <:+: [0x4F, 0x4F, 0x4B].take (3 : Int).toNat ∧
    findInBuf [0x0A, 0x4F, 0x4B] 3 [0x4F, 0x4B] = 1 := by
  refine ⟨by decide, ⟨[0x4F], [], by decide⟩, by decide⟩

/-- C20, the code at the failing input: with two endpoints configured (three
rows in the channel table, two endpoint descriptors) a UA, DM, DISC or SABM for
channel 3 indexes `cstatus[3]` and a UIH for channel 3 indexes `ussp_fd[2]`,
both outside the tables. -/
theorem extract_frames_outside_tables :
    st0.cstatus.length = 3 ∧ st0.ussp.length = 2 ∧
    extract_frames full_sink [⟨3, 0x73, []⟩] st0 = none ∧
    extract_frames full_sink [⟨3, 0x1F, []⟩] st0 = none ∧
    extract_frames full_sink [⟨3, 0x53, []⟩] st0 = none ∧
    extract_frames full_sink [⟨3, 0x3F, []⟩] st0 = none ∧
    extract_frames full_sink [⟨3, 0xEF, [0x41]⟩] st0 = none := by
  refine ⟨rfl, rfl, by decide, by decide, by decide, by decide, by decide⟩

/-! ## The version probe -/

theorem extract_frames_one_ua_control (sink : Sink) (frame : GSM0710_Frame) (st : Mux)
    (cs : Channel_Status)
    (hctl : and_not frame.control PF = UA)
    (hch : frame.channel = 0)
    (hcs : st.cstatus[0]? = some cs)
    (hclosed : cs.opened ≠ 1) :
    extract_frames_one sink frame st =
      some (write_frame sink 0 version_test 18 UIH (set_opened st 0 cs 1)).1 := by
  unfold extract_frames_one
  simp [FRAME_IS, hctl, hch, hcs, hclosed, UI, UIH, UA]

/-- C16, refuted as stated: a SABM|PF from the peer takes the closed control
channel to OPEN with `max_frame_size = 31`, and the only bytes sent are the
six bytes of the UA|PF reply; the version probe is not among them. -/
theorem extract_frames_sabm_sends_no_probe :
    st0.cstatus[0]? = some ⟨0, 0x8D⟩ ∧
    ∃ st1, extract_frames full_sink [⟨0, 0x3F, []⟩] st0 = some (st1, 1) ∧
      st1.cstatus[0]? = some ⟨1, 0x8D⟩ ∧
      st1.wire = [0xF9, 0x03, 0x73, 0x01, 0xD7, 0xF9] ∧
      ¬ (encode_frame 0 UIH (version_test.take 18) <:+: st1.wire) := by
  refine ⟨rfl, (write_frame full_sink 0 [] 0 0x73 (set_opened st0 0 ⟨0, 0x8D⟩ 1)).1,
    by decide, by decide, by decide, ?_⟩
  intro h
  have hl := h.length_le
  have h1 : (encode_frame 0 UIH (version_test.take 18)).length = 24 := by decide
  have h2 : (write_frame full_sink 0 [] 0 0x73
      (set_opened st0 0 ⟨0, 0x8D⟩ 1)).1.wire.length = 6 := by decide
  omega

/-- C16, amended: whenever a UA frame takes the control channel (channel 0)
from CLOSED to OPEN, `extract_frames` emits the vendor version-probe, a UIH on
DLC 0 whose payload is the 18 bytes 0x23 0x21 0x04, `TEMUXVERSION2`, 0x00 0x00
(given `max_frame_size ≥ 18`); a SABM from the peer that opens the control
channel is answered by the UA|PF reply alone. -/
theorem extract_frames_control_channel_opens (sink : Sink) (frame : GSM0710_Frame)
    (st : Mux) (cs : Channel_Status)
    (hch : frame.channel = 0) (hcs : st.cstatus[0]? = some cs) (hclosed : cs.opened = 0) :
    (and_not frame.control PF = UA →
      ∃ st1, extract_frames sink [frame] st = some (st1, 1) ∧
        st1.cstatus[0]? = some { cs with opened := 1 } ∧
        st1.wire = (write_frame sink 0 version_test 18 UIH st).1.wire ∧
        st1.writes = (write_frame sink 0 version_test 18 UIH st).1.writes ∧
        ((∀ k n, sink k n = (n : Int)) → 18 ≤ st.max_frame_size →
          st1.wire = st.wire ++ [0xF9, 0x03, 0xEF, 0x25,
            0x23, 0x21, 0x04, 0x54, 0x45, 0x4D, 0x55, 0x58, 0x56, 0x45, 0x52, 0x53, 0x49,
            0x4F, 0x4E, 0x32, 0x00, 0x00, 0xCA, 0xF9])) ∧
    (and_not frame.control PF = SABM →
      ∃ st1, extract_frames sink [frame] st = some (st1, 1) ∧
        st1.cstatus[0]? = some { cs with opened := 1 } ∧
        st1.wire = (write_frame sink 0 [] 0 0x73 st).1.wire ∧
        st1.writes = (write_frame sink 0 [] 0 0x73 st).1.writes ∧
        ((∀ k n, sink k n = (n : Int)) → 0 ≤ st.max_frame_size →
          st1.wire = st.wire ++ [0xF9, 0x03, 0x73, 0x01, 0xD7, 0xF9])) := by
  have hlt : 0 < st.cstatus.length := by
    by_contra h
    have : st.cstatus = [] := List.length_eq_zero.mp (by omega)
    rw [this] at hcs; cases hcs
  constructor
  · intro hctl
    have hone := extract_frames_one_ua_control sink frame st cs hctl hch hcs
      (by rw [hclosed]; decide)
    have hser := write_frame_serial_congr sink 0 version_test 18 UIH st
      (set_opened st 0 cs 1) rfl rfl rfl
    refine ⟨_, extract_frames_single sink frame st _ hone, ?_, hser.1, hser.2, ?_⟩
    · rw [write_frame_cstatus]; exact set_opened_cstatus_same st 0 cs 1 hlt
    · intro hsink hmax
      rw [hser.1]
      have h := (write_frame_emits_aux sink hsink 0 version_test 18 UIH st
        (le_min (by omega) (by decide)) (by decide)).2
      have hmin : min st.max_frame_size 18 = 18 := min_eq_right hmax
      rw [h, hmin]
      exact congrArg (fun l => st.wire ++ l) (by decide)
  · intro hctl
    have hcs2 : st.cstatus[frame.channel]? = some cs := by rw [hch]; exact hcs
    have hone := extract_frames_one_sabm sink frame st cs hctl hcs2
    have h73 : UA ||| PF = 0x73 := by decide
    rw [h73, hch] at hone
    have hser := write_frame_serial_congr sink ((0 : Nat) : Int) [] 0 0x73 st
      (set_opened st 0 cs 1) rfl rfl rfl
    refine ⟨_, extract_frames_single sink frame st _ hone, ?_, hser.1, hser.2, ?_⟩
    · rw [write_frame_cstatus]; exact set_opened_cstatus_same st 0 cs 1 hlt
    · intro hsink hmax
      rw [hser.1]
      have h := write_frame_empty_full sink hsink 0 0x73 (by decide) st hmax
      rw [h]
      exact congrArg (fun l => st.wire ++ l) (by decide)

/-- C16 amended, at a concrete input: UA|PF on the closed control channel. -/
theorem extract_frames_control_channel_opens_witness :
    ∃ st1, extract_frames full_sink [⟨0, 0x73, []⟩] st0 = some (st1, 1) ∧
      st1.cstatus[0]? = some ⟨1, 0x8D⟩ ∧
      st1.wire = [0xF9, 0x03, 0xEF, 0x25,
        0x23, 0x21, 0x04, 0x54, 0x45, 0x4D, 0x55, 0x58, 0x56, 0x45, 0x52, 0x53, 0x49,
        0x4F, 0x4E, 0x32, 0x00, 0x00, 0xCA, 0xF9] := by
  obtain ⟨st1, h, hc, -, -, hw⟩ :=
    (extract_frames_control_channel_opens full_sink ⟨0, 0x73, []⟩ st0 ⟨0, 0x8D⟩ rfl rfl
      rfl).1 (by decide)
  exact ⟨st1, h, hc, hw (fun _ _ => rfl) (by decide)⟩

/-! ## Shutdown -/

theorem write_frame_full_encode (sink : Sink) (hsink : ∀ k n, sink k n = (n : Int))
    (channel : Int) (input : List Nat) (type : Nat) (st : Mux)
    (hlen : (input.length : Int) ≤ st.max_frame_size) :
    (write_frame sink channel input (input.length : Int) type st).1.wire
      = st.wire ++ encode_frame channel type input := by
  have hmin : min st.max_frame_size (input.length : Int) = input.length := min_eq_right hlen
  have h := (write_frame_full sink hsink channel input input.length type st
    (by rw [hmin]; omega)).2
  rw [h, hmin]
  simp [encode_frame]

theorem write_frame_terminateCount_comm (sink : Sink) (channel : Int) (input : List Nat)
    (count : Int) (type : Nat) (st : Mux) (x : Int) :
    (write_frame sink channel input count type { st with terminateCount := x }).1
      = { (write_frame sink channel input count type st).1 with terminateCount := x } := by
  unfold write_frame write_trailer write_serial
  simp only
  split_ifs <;> rfl

theorem is_opened_congr (st st1 : Mux) (h : st1.cstatus = st.cstatus) (c : Nat) :
    is_opened st1 c = is_opened st c := by
  unfold is_opened; rw [h]

theorem shutdown_frames_terminateCount_comm (sink : Sink) (n : Nat) :
    ∀ (st : Mux) (x : Int),
      shutdown_frames sink n { st with terminateCount := x }
        = { shutdown_frames sink n st with terminateCount := x } := by
  induction n with
  | zero =>
    intro st x
    simp only [shutdown_frames]
    exact write_frame_terminateCount_comm sink 0 close_mux 2 UIH st x
  | succ n ih =>
    intro st x
    simp only [shutdown_frames]
    have ho : is_opened { st with terminateCount := x } (n + 1) = is_opened st (n + 1) :=
      is_opened_congr st _ rfl _
    rw [ho]
    by_cases h : is_opened st (n + 1) = true
    · simp only [h, if_true]
      rw [write_frame_terminateCount_comm, ih]
    · simp only [h, Bool.false_eq_true, if_false]
      rw [ih]

theorem shutdown_frames_keeps (sink : Sink) (n : Nat) :
    ∀ (st : Mux), (shutdown_frames sink n st).cstatus = st.cstatus ∧
      (shutdown_frames sink n st).terminate = st.terminate ∧
      (shutdown_frames sink n st).ussp = st.ussp := by
  induction n with
  | zero =>
    intro st
    simp only [shutdown_frames]
    exact ⟨write_frame_cstatus _ _ _ _ _ _, write_frame_terminate _ _ _ _ _ _,
      write_frame_ussp _ _ _ _ _ _⟩
  | succ n ih =>
    intro st
    simp only [shutdown_frames]
    by_cases h : is_opened st (n + 1) = true
    · simp only [h, if_true]
      obtain ⟨h1, h2, h3⟩ := ih (write_frame sink ((n + 1 : Nat) : Int) [] 0 (DISC ||| PF) st).1
      exact ⟨h1.trans (write_frame_cstatus _ _ _ _ _ _),
        h2.trans (write_frame_terminate _ _ _ _ _ _), h3.trans (write_frame_ussp _ _ _ _ _ _)⟩
    · simp only [h, Bool.false_eq_true, if_false]
      exact ih st

theorem main_loop_tail_disc (sink : Sink) (tick : Tick) (d : Daemon) (n : Nat)
    (hterm : d.mux.terminate ≠ 0) (htc : d.mux.terminateCount = ((n + 1 : Nat) : Int))
    (htab : n + 1 < d.mux.cstatus.length) :
    main_loop_tail sink tick d =
      some { d with mux :=
        { (if is_opened d.mux (n + 1) then
            (write_frame sink ((n + 1 : Nat) : Int) [] 0 (DISC ||| PF) d.mux).1
           else d.mux) with terminateCount := (n : Int) } } := by
  have hpos : d.mux.terminateCount > 0 := by rw [htc]; omega
  have hidx : d.mux.terminateCount.toNat = n + 1 := by rw [htc]; omega
  unfold main_loop_tail
  simp only [hterm, ne_eq, not_false_eq_true, if_true, hpos, hidx,
    List.getElem?_eq_getElem htab]
  unfold is_opened
  simp only [List.getElem?_eq_getElem htab, htc]
  by_cases ho : d.mux.cstatus[n + 1].opened = 0
  · simp [ho, htc]
  · simp [ho, write_frame_terminateCount]
    rw [htc]; omega

theorem main_loop_idle_shutdown (sink : Sink) (n : Nat) :
    ∀ (ticks : List Tick) (d : Daemon),
      d.mux.terminate ≠ 0 → d.mux.terminateCount = (n : Int) →
      n < d.mux.cstatus.length → n + 2 ≤ ticks.length →
      main_loop_idle sink ticks d =
        some ({ d with mux := { shutdown_frames sink n d.mux with terminateCount := -2 } },
          n + 2) := by
  induction n with
  | zero =>
    intro ticks d hterm htc _ hticks
    match ticks, hticks with
    | t1 :: t2 :: rest, _ =>
      have htc0 : d.mux.terminateCount = 0 := by simpa using htc
      have h1 : main_loop_tail sink t1 d = some { d with mux :=
          { (write_frame sink 0 close_mux 2 UIH d.mux).1 with terminateCount := -1 } } := by
        unfold main_loop_tail
        simp [hterm, htc0, write_frame_terminateCount]
      have h2 : main_loop_tail sink t2 { d with mux :=
          { (write_frame sink 0 close_mux 2 UIH d.mux).1 with terminateCount := -1 } }
          = some { d with mux :=
          { (write_frame sink 0 close_mux 2 UIH d.mux).1 with terminateCount := -2 } } := by
        unfold main_loop_tail
        simp [hterm, write_frame_terminate]
      have h3 : main_loop_idle sink rest { d with mux :=
          { (write_frame sink 0 close_mux 2 UIH d.mux).1 with terminateCount := -2 } }
          = some ({ d with mux :=
          { (write_frame sink 0 close_mux 2 UIH d.mux).1 with terminateCount := -2 } }, 0) := by
        cases rest <;> simp [main_loop_idle, hterm, write_frame_terminate]
      simp only [main_loop_idle, htc0, h1, h2, h3, shutdown_frames]
      simp [write_frame_terminate, hterm]
  | succ n ih =>
    intro ticks d hterm htc htab hticks
    match ticks, hticks with
    | t1 :: rest, hticks =>
      have h1 := main_loop_tail_disc sink t1 d n hterm (by simpa using htc) htab
      have hcond : d.mux.terminate = 0 ∨ d.mux.terminateCount ≥ -1 := by
        right; rw [htc]; omega
      generalize hst1 : (if is_opened d.mux (n + 1) then
            (write_frame sink ((n + 1 : Nat) : Int) [] 0 (DISC ||| PF) d.mux).1
           else d.mux) = st1 at h1
      have hk : st1.cstatus = d.mux.cstatus ∧ st1.terminate = d.mux.terminate := by
        rw [← hst1]; split_ifs
        · exact ⟨write_frame_cstatus _ _ _ _ _ _, write_frame_terminate _ _ _ _ _ _⟩
        · exact ⟨rfl, rfl⟩
      have hrec := ih rest { d with mux := { st1 with terminateCount := (n : Int) } }
        (by show st1.terminate ≠ 0; rw [hk.2]; exact hterm) rfl
        (by show n < st1.cstatus.length; rw [hk.1]; omega)
        (by simp only [List.length_cons] at hticks; omega)
      rw [main_loop_idle]
      simp only [hcond, if_true, h1, hrec]
      simp only [shutdown_frames, hst1, shutdown_frames_terminateCount_comm]

theorem shutdown_frames_full (sink : Sink) (hsink : ∀ k n, sink k n = (n : Int)) (n : Nat) :
    ∀ (st : Mux), 2 ≤ st.max_frame_size →
      (shutdown_frames sink n st).wire
        = st.wire
          ++ (((countdown n).filter (is_opened st)).map
                (fun c => encode_frame (c : Int) (DISC ||| PF) [])).flatten
          ++ encode_frame 0 UIH close_mux := by
  induction n with
  | zero =>
    intro st hm
    have h := write_frame_full_encode sink hsink 0 close_mux UIH st (by simpa [close_mux] using hm)
    simpa [shutdown_frames, countdown, close_mux] using h
  | succ n ih =>
    intro st hm
    simp only [shutdown_frames, countdown, List.filter_cons]
    by_cases h : is_opened st (n + 1) = true
    · simp only [h, if_true]
      have hw := write_frame_full_encode sink hsink ((n + 1 : Nat) : Int) [] (DISC ||| PF) st
        (by simp; omega)
      have hw2 : (write_frame sink ((n + 1 : Nat) : Int) [] 0 (DISC ||| PF) st).1.wire
          = st.wire ++ encode_frame ((n + 1 : Nat) : Int) (DISC ||| PF) [] := by
        simpa using hw
      have hf : is_opened (write_frame sink ((n + 1 : Nat) : Int) [] 0 (DISC ||| PF) st).1
          = is_opened st :=
        funext (fun c => is_opened_congr st _ (write_frame_cstatus _ _ _ _ _ _) c)
      rw [ih _ (by rw [write_frame_max_frame_size]; exact hm), hw2, hf]
      simp [List.append_assoc]
    · simp only [h, Bool.false_eq_true, if_false]
      exact ih st hm

/-- C17: once `terminate` is set with `terminateCount = n ≥ 0` (a row of the
channel table) and nothing arrives any more, the loop of `main` runs exactly
`n + 2` more iterations and exits, having made, in this order, one
`write_frame` of DISC|PF (0x53) with empty payload on each of the channels
`n, n - 1, ..., 1` that is marked opened and then one of a UIH on DLC 0 with
payload `[0xC3, 0x01]`; with a sink that accepts everything these are the
bytes on the wire. With the sentinel `terminateCount = -1` it exits after one
iteration and sends nothing. -/
theorem main_loop_shutdown_bounded (sink : Sink) (ticks : List Tick) (d : Daemon)
    (hterm : d.mux.terminate ≠ 0) :
    (∀ n : Nat, d.mux.terminateCount = (n : Int) → n < d.mux.cstatus.length →
      n + 2 ≤ ticks.length →
      ∃ d1, main_loop_idle sink ticks d = some (d1, n + 2) ∧
        d1.mux.terminateCount = -2 ∧ d1.mux.terminate = d.mux.terminate ∧
        d1.mux.cstatus = d.mux.cstatus ∧
        d1.mux.wire = (shutdown_frames sink n d.mux).wire ∧
        d1.mux.writes = (shutdown_frames sink n d.mux).writes ∧
        ((∀ k m, sink k m = (m : Int)) → 2 ≤ d.mux.max_frame_size →
          d1.mux.wire = d.mux.wire
            ++ (((countdown n).filter (is_opened d.mux)).map
                  (fun c => encode_frame (c : Int) 0x53 [])).flatten
            ++ encode_frame 0 0xEF [0xC3, 0x01])) ∧
    (d.mux.terminateCount = -1 → 1 ≤ ticks.length →
      main_loop_idle sink ticks d
        = some ({ d with mux := { d.mux with terminateCount := -2 } }, 1)) := by
  constructor
  · intro n htc htab hticks
    refine ⟨_, main_loop_idle_shutdown sink n ticks d hterm htc htab hticks, rfl, ?_, ?_, rfl,
      rfl, ?_⟩
    · exact (shutdown_frames_keeps sink n d.mux).2.1
    · exact (shutdown_frames_keeps sink n d.mux).1
    · intro hsink hm
      exact shutdown_frames_full sink hsink n d.mux hm
  · intro htc hticks
    match ticks, hticks with
    | t1 :: rest, _ =>
      have h1 : main_loop_tail sink t1 d
          = some { d with mux := { d.mux with terminateCount := -2 } } := by
        unfold main_loop_tail
        simp [hterm, htc]
      have h2 : main_loop_idle sink rest { d with mux := { d.mux with terminateCount := -2 } }
          = some ({ d with mux := { d.mux with terminateCount := -2 } }, 0) := by
        cases rest <;> simp [main_loop_idle, hterm]
      rw [main_loop_idle]
      simp [htc, h1, h2]

/-- C17 at a concrete input: shutdown from the countdown 2 with channel 2 open
and channel 1 closed takes four iterations and sends one DISC|PF on channel 2
and the close-down command; from the sentinel it takes one iteration. -/
theorem main_loop_shutdown_bounded_witness :
    (∃ d1, main_loop_idle full_sink [⟨0, []⟩, ⟨0, []⟩, ⟨0, []⟩, ⟨0, []⟩, ⟨0, []⟩] daemon_stop
        = some (d1, 4) ∧
      d1.mux.wire = [0xF9, 0x0B, 0x53, 0x01, 0xB8, 0xF9,
        0xF9, 0x03, 0xEF, 0x05, 0xC3, 0x01, 0xF2, 0xF9]) ∧
    main_loop_idle full_sink [⟨0, []⟩, ⟨0, []⟩] daemon_stop_now
      = some ({ daemon_stop_now with
          mux := { daemon_stop_now.mux with terminateCount := -2 } }, 1) := by
  have h := main_loop_shutdown_bounded full_sink
    [⟨0, []⟩, ⟨0, []⟩, ⟨0, []⟩, ⟨0, []⟩, ⟨0, []⟩] daemon_stop (by decide)
  have h2 := main_loop_shutdown_bounded full_sink [⟨0, []⟩, ⟨0, []⟩] daemon_stop_now
    (by decide)
  obtain ⟨d1, hrun, -, -, -, -, -, hw⟩ := h.1 2 rfl (by decide) (by decide)
  exact ⟨⟨d1, hrun, (hw (fun _ _ => rfl) (by decide)).trans (by decide)⟩,
    h2.2 rfl (by decide)⟩

/-! ## Pings and restart -/

/-- C18, refuted as stated: from `pingNumber = 1` and a last frame at time 0,
the silent iterations at times 6, 11 and 16 each send a ping; `pingNumber` is
then 4 and three pings are on the wire. The next iteration, at time 17, when
the fourth interval (time 20) has not passed, sends no fourth ping and runs
the restart, which here succeeds and resets `pingNumber` to 1. -/
theorem restart_after_three_pings :
    ∃ d3 d4,
      ((main_loop_tail full_sink ⟨6, []⟩ daemon0).bind
        (main_loop_tail full_sink ⟨11, []⟩)).bind (main_loop_tail full_sink ⟨16, []⟩)
        = some d3 ∧
      d3.pingNumber = 4 ∧ d3.mux.restart = 0 ∧ d3.mux.terminate = 0 ∧
      d3.mux.wire = encode_frame 0 UIH (ping_test.take 6)
        ++ encode_frame 0 UIH (ping_test.take 6) ++ encode_frame 0 UIH (ping_test.take 6) ∧
      ¬ (d3.frameReceiveTime + POLLING_INTERVAL * d3.pingNumber < 17) ∧
      main_loop_tail full_sink ⟨17, [(good_platform, 17)]⟩ d3
        = restart_loop full_sink [(good_platform, 17)] d3 ∧
      restart_loop full_sink [(good_platform, 17)] d3 = some d4 ∧
      d4.pingNumber = 1 ∧ d4.frameReceiveTime = 17 ∧
      d4.mux.cstatus = [⟨0, 0x8D⟩, ⟨0, 0x8D⟩, ⟨0, 0x8D⟩] := by
  refine ⟨{ daemon0 with
      mux := { daemon0.mux with
        wire := encode_frame 0 UIH (ping_test.take 6)
          ++ encode_frame 0 UIH (ping_test.take 6) ++ encode_frame 0 UIH (ping_test.take 6),
        writes := 9 },
      pingNumber := 4 }, ?_, by decide, rfl, rfl, rfl, rfl, by decide, by decide, ?_⟩
  · exact ((restart_loop full_sink [(good_platform, 17)] { daemon0 with
      mux := { daemon0.mux with
        wire := encode_frame 0 UIH (ping_test.take 6)
          ++ encode_frame 0 UIH (ping_test.take 6) ++ encode_frame 0 UIH (ping_test.take 6),
        writes := 9 },
      pingNumber := 4 }).getD daemon0)
  · refine ⟨by decide, by decide, by decide, by decide⟩

/-- C18, amended: in fault-tolerant mode with `terminate` and `restart` clear,
an iteration of the loop in which no frame is received sends a ping exactly
when `pingNumber < 4` and `frameReceiveTime + 5 * pingNumber < currentTime`,
the ping being one UIH on DLC 0 with the 6-byte payload 0x23 0x09 `PING`, and
then increments `pingNumber`; an iteration that finds `pingNumber ≥ 4` sends
no ping and runs the restart at once. Counted from `pingNumber = 1` the
restart therefore comes on the iteration after the third ping: three
consecutive pings take `pingNumber` to 4 and the next iteration restarts. -/
theorem main_loop_tail_ping (sink : Sink) (tick : Tick) (d : Daemon)
    (hft : d.mux.faultTolerant ≠ 0) (hterm : d.mux.terminate = 0)
    (hrestart : d.mux.restart = 0) :
    (d.pingNumber < 4 → d.frameReceiveTime + 5 * d.pingNumber < tick.now →
      main_loop_tail sink tick d
        = some { d with mux := (write_frame sink 0 ping_test 6 0xEF d.mux).1,
                        pingNumber := d.pingNumber + 1 } ∧
      ((∀ k n, sink k n = (n : Int)) → 6 ≤ d.mux.max_frame_size →
        (write_frame sink 0 ping_test 6 0xEF d.mux).1.wire = d.mux.wire ++
          [0xF9, 0x03, 0xEF, 0x0D, 0x23, 0x09, 0x50, 0x49, 0x4E, 0x47, 0xFC, 0xF9])) ∧
    (d.pingNumber < 4 → ¬ (d.frameReceiveTime + 5 * d.pingNumber < tick.now) →
      main_loop_tail sink tick d = some d) ∧
    (4 ≤ d.pingNumber →
      main_loop_tail sink tick d = restart_loop sink tick.attempts d) ∧
    (d.pingNumber = 1 → ∀ t1 t2 t3 : Tick,
      d.frameReceiveTime + 5 < t1.now → d.frameReceiveTime + 10 < t2.now →
      d.frameReceiveTime + 15 < t3.now →
      ∃ d3, ((main_loop_tail sink t1 d).bind (main_loop_tail sink t2)).bind
          (main_loop_tail sink t3) = some d3 ∧
        d3.pingNumber = 4 ∧
        d3.mux = (write_frame sink 0 ping_test 6 0xEF
          (write_frame sink 0 ping_test 6 0xEF
            (write_frame sink 0 ping_test 6 0xEF d.mux).1).1).1 ∧
        main_loop_tail sink tick d3 = restart_loop sink tick.attempts d3) := by
  have hstep : ∀ (t : Tick) (e : Daemon), e.mux.faultTolerant ≠ 0 → e.mux.terminate = 0 →
      e.mux.restart = 0 → e.pingNumber < 4 → e.frameReceiveTime + 5 * e.pingNumber < t.now →
      main_loop_tail sink t e
        = some { e with mux := (write_frame sink 0 ping_test 6 0xEF e.mux).1,
                        pingNumber := e.pingNumber + 1 } := by
    intro t e h1 h2 h3 h4 h5
    have hn : ¬ (e.pingNumber ≥ MAX_PINGS) := by unfold MAX_PINGS; omega
    have hp : e.frameReceiveTime + POLLING_INTERVAL * e.pingNumber < t.now := by
      unfold POLLING_INTERVAL; exact h5
    unfold main_loop_tail
    simp [h1, h2, h3, hn, hp, PING_TEST_LEN, UIH]
  have hrst : ∀ (t : Tick) (e : Daemon), e.mux.faultTolerant ≠ 0 → e.mux.terminate = 0 →
      e.mux.restart = 0 → 4 ≤ e.pingNumber →
      main_loop_tail sink t e = restart_loop sink t.attempts e := by
    intro t e h1 h2 h3 h4
    have hn : e.pingNumber ≥ MAX_PINGS := by unfold MAX_PINGS; omega
    unfold main_loop_tail
    simp [h1, h2, h3, hn]
  refine ⟨fun h4 h5 => ⟨hstep tick d hft hterm hrestart h4 h5, ?_⟩, ?_, hrst tick d hft hterm hrestart, ?_⟩
  · intro hsink hm
    have h := (write_frame_emits_aux sink hsink 0 ping_test 6 0xEF d.mux
      (le_min (by omega) (by decide)) (by decide)).2
    have hmin : min d.mux.max_frame_size 6 = 6 := min_eq_right hm
    rw [h, hmin]
    exact congrArg (fun l => d.mux.wire ++ l) (by decide)
  · intro h4 h5
    have hn : ¬ (d.pingNumber ≥ MAX_PINGS) := by unfold MAX_PINGS; omega
    have hp : ¬ (d.frameReceiveTime + POLLING_INTERVAL * d.pingNumber < tick.now) := by
      unfold POLLING_INTERVAL; exact h5
    unfold main_loop_tail
    simp [hft, hterm, hrestart, hn, hp]
  · intro h1 t1 t2 t3 ht1 ht2 ht3
    have hstep2 : ∀ (t : Tick) (e : Daemon), e.mux.faultTolerant ≠ 0 → e.mux.terminate = 0 →
        e.mux.restart = 0 → e.pingNumber < 4 →
        e.frameReceiveTime + 5 * e.pingNumber < t.now →
        ∃ e1, main_loop_tail sink t e = some e1 ∧
          e1.mux = (write_frame sink 0 ping_test 6 0xEF e.mux).1 ∧
          e1.pingNumber = e.pingNumber + 1 ∧ e1.frameReceiveTime = e.frameReceiveTime ∧
          e1.mux.faultTolerant ≠ 0 ∧ e1.mux.terminate = 0 ∧ e1.mux.restart = 0 := by
      intro t e h1 h2 h3 h4 h5
      refine ⟨_, hstep t e h1 h2 h3 h4 h5, rfl, rfl, rfl, ?_, ?_, ?_⟩
      · show (write_frame sink 0 ping_test 6 0xEF e.mux).1.faultTolerant ≠ 0
        rw [write_frame_faultTolerant]; exact h1
      · show (write_frame sink 0 ping_test 6 0xEF e.mux).1.terminate = 0
        rw [write_frame_terminate]; exact h2
      · show (write_frame sink 0 ping_test 6 0xEF e.mux).1.restart = 0
        rw [write_frame_restart]; exact h3
    obtain ⟨e1, s1, m1, p1, f1, a1, b1, c1⟩ :=
      hstep2 t1 d hft hterm hrestart (by omega) (by rw [h1]; omega)
    obtain ⟨e2, s2, m2, p2, f2, a2, b2, c2⟩ :=
      hstep2 t2 e1 a1 b1 c1 (by omega) (by rw [p1, f1, h1]; omega)
    obtain ⟨e3, s3, m3, p3, f3, a3, b3, c3⟩ :=
      hstep2 t3 e2 a2 b2 c2 (by omega) (by rw [p2, f2, p1, f1, h1]; omega)
    refine ⟨e3, by rw [s1, Option.some_bind, s2, Option.some_bind, s3], by omega, ?_,
      hrst tick e3 a3 b3 c3 (by omega)⟩
    rw [m3, m2, m1]

/-- C18 amended, at a concrete input: the iteration at time 6 after a last
frame at time 0 sends the first ping. -/
theorem main_loop_tail_ping_witness :
    main_loop_tail full_sink ⟨6, []⟩ daemon0
      = some { daemon0 with mux := (write_frame full_sink 0 ping_test 6 0xEF daemon0.mux).1,
                            pingNumber := daemon0.pingNumber + 1 } ∧
    (write_frame full_sink 0 ping_test 6 0xEF daemon0.mux).1.wire
      = [0xF9, 0x03, 0xEF, 0x0D, 0x23, 0x09, 0x50, 0x49, 0x4E, 0x47, 0xFC, 0xF9] :=
  have h := (main_loop_tail_ping full_sink ⟨6, []⟩ daemon0 (by decide) rfl rfl).1
    (by decide) (by decide)
  ⟨h.1, h.2 (fun _ _ => rfl) (by decide)⟩

/-! ## Restart -/

theorem open_channels_keeps (sink : Sink) (n : Nat) :
    ∀ (i : Nat) (st : Mux), (open_channels sink n i st).cstatus = st.cstatus := by
  induction n with
  | zero => intro i st; rfl
  | succ n ih =>
    intro i st
    simp only [open_channels]
    rw [ih, write_frame_cstatus]

/-- The first loop of `openDevicesAndMuxMode` closes the rows and clears the
carry-over counts it passes over, and leaves the receive buffer alone. -/
theorem open_ports_resets (plat : Platform) (n : Nat) :
    ∀ (i : Nat) (d d1 : Daemon), open_ports plat n i d = (d1, true) →
      (∀ c < i, ∀ cs, d.mux.cstatus[c]? = some cs → cs.opened = 0) →
      (∀ p < i, ∀ x, d.remaining[p]? = some x → x = 0) →
      (∀ c < i + n, ∀ cs, d1.mux.cstatus[c]? = some cs → cs.opened = 0) ∧
      (∀ p < i + n, ∀ x, d1.remaining[p]? = some x → x = 0) ∧
      d1.in_buf = d.in_buf ∧ d1.mux.cstatus.length = d.mux.cstatus.length ∧
      d1.remaining.length = d.remaining.length := by
  induction n with
  | zero =>
    intro i d d1 h hc hr
    simp only [open_ports, Prod.mk.injEq, and_true] at h
    subst h
    exact ⟨hc, hr, rfl, rfl, rfl⟩
  | succ n ih =>
    intro i d d1 h hc hr
    simp only [open_ports] at h
    by_cases hp : plat.open_pty_ok i = true
    · simp only [hp, if_true] at h
      obtain ⟨h1, h2, h3, h4, h5⟩ := ih (i + 1) _ d1 h
        (by
          intro c hci cs hcs
          simp only [List.getElem?_set] at hcs
          by_cases hic : i = c
          · simp only [hic, if_true] at hcs
            split_ifs at hcs
            · cases hcs; rfl
          · simp only [hic, if_false] at hcs
            exact hc c (by omega) cs hcs)
        (by
          intro p hpi x hx
          simp only [List.getElem?_set] at hx
          by_cases hip : i = p
          · simp only [hip, if_true] at hx
            split_ifs at hx
            · cases hx; rfl
          · simp only [hip, if_false] at hx
            exact hr p (by omega) x hx)
      refine ⟨fun c hcn => h1 c (by omega), fun p hpn => h2 p (by omega), h3, ?_, ?_⟩
      · rw [h4]; simp
      · rw [h5]; simp
    · simp only [hp, Bool.false_eq_true, if_false, Prod.mk.injEq, Bool.false_eq_true,
        and_false] at h

theorem close_last_closes (st : Mux) (i : Nat)
    (h : ∀ c < i, ∀ cs, st.cstatus[c]? = some cs → cs.opened = 0) :
    (∀ c < i + 1, ∀ cs, (close_last st i).cstatus[c]? = some cs → cs.opened = 0) ∧
    (close_last st i).cstatus.length = st.cstatus.length := by
  unfold close_last
  cases hi : st.cstatus[i]? with
  | none =>
    refine ⟨?_, rfl⟩
    intro c hc cs hcs
    by_cases hci : c = i
    · rw [hci, hi] at hcs; cases hcs
    · exact h c (by omega) cs hcs
  | some cs0 =>
    refine ⟨?_, by simp [set_opened]⟩
    intro c hc cs hcs
    simp only [set_opened, List.getElem?_set] at hcs
    by_cases hci : i = c
    · simp only [hci, if_true] at hcs
      split_ifs at hcs
      · cases hcs; rfl
    · simp only [hci, if_false] at hcs
      exact h c (by omega) cs hcs

/-- A run of `openDevicesAndMuxMode` that returns 0 leaves every row of the
channel table closed and every carry-over count at 0, and does not touch the
receive buffer. -/
theorem openDevicesAndMuxMode_resets (sink : Sink) (plat : Platform) (d : Daemon)
    (hok : (openDevicesAndMuxMode sink plat d).2 = 0) :
    (∀ c < d.numOfPorts + 1, ∀ cs,
      (openDevicesAndMuxMode sink plat d).1.mux.cstatus[c]? = some cs → cs.opened = 0) ∧
    (∀ p < d.numOfPorts, ∀ x,
      (openDevicesAndMuxMode sink plat d).1.remaining[p]? = some x → x = 0) ∧
    (openDevicesAndMuxMode sink plat d).1.in_buf = d.in_buf ∧
    (openDevicesAndMuxMode sink plat d).1.mux.cstatus.length = d.mux.cstatus.length ∧
    (openDevicesAndMuxMode sink plat d).1.remaining.length = d.remaining.length := by
  generalize hr : open_ports plat d.numOfPorts 0 d = r
  obtain ⟨d1, ok⟩ := r
  cases ok with
  | false =>
    have : (openDevicesAndMuxMode sink plat d).2 = -1 := by
      unfold openDevicesAndMuxMode
      rw [hr]
      rfl
    rw [this] at hok
    exact absurd hok (by decide)
  | true =>
    obtain ⟨h1, h2, h3, h4, h5⟩ := open_ports_resets plat d.numOfPorts 0 d d1 hr
      (fun c hc => absurd hc (Nat.not_lt_zero c)) (fun p hp => absurd hp (Nat.not_lt_zero p))
    simp only [Nat.zero_add] at h1 h2
    obtain ⟨k1, k2⟩ := close_last_closes d1.mux d.numOfPorts h1
    unfold openDevicesAndMuxMode at hok ⊢
    rw [hr] at hok ⊢
    simp only [Bool.true_eq_false, if_false] at hok ⊢
    by_cases hs : plat.open_serialport_ok = false
    · rw [if_pos hs] at hok
      have hneg : (-1 : Int) = 0 := hok
      exact absurd hneg (by decide)
    · rw [if_neg hs] at hok ⊢
      by_cases hm : (plat.modem_init (close_last d1.mux d.numOfPorts).wire
          (close_last d1.mux d.numOfPorts).writes).2 = 0
      · rw [if_neg (not_not.mpr hm)]
        refine ⟨?_, h2, h3, ?_, h5⟩
        · intro c hc cs hcs
          rw [open_channels_keeps, write_frame_cstatus] at hcs
          exact k1 c hc cs hcs
        · rw [open_channels_keeps, write_frame_cstatus]
          exact k2.trans h4
      · rw [if_pos hm] at hok
        exact absurd hok hm

/-- C19, refuted as stated: a restart that succeeds at its first attempt
leaves the two bytes that the receive buffer held before the restart in the
receive buffer. -/
theorem restart_keeps_receive_buffer :
    daemon0.in_buf = [0xF9, 0x07] ∧
    (restart_attempt full_sink good_platform daemon0).2 = 0 ∧
    ∃ d1, restart_loop full_sink [(good_platform, 17)] daemon0 = some d1 ∧
      d1.in_buf = [0xF9, 0x07] ∧ d1.in_buf ≠ [] := by
  refine ⟨rfl, by decide,
    { (restart_attempt full_sink good_platform daemon0).1 with frameReceiveTime := 17 },
    ?_, ?_, ?_⟩
  · decide
  · decide
  · decide

/-- C19, amended: a fault-tolerant restart that succeeds (`closeDevices`
followed by `openDevicesAndMuxMode` returning 0) resets the channel table and
the carry-over state: afterwards every channel `0..numOfPorts` is CLOSED and
every endpoint's `remaining` count is 0. The receive buffer is not touched by
the restart: it holds the bytes it held before. -/
theorem restart_resets_tables (sink : Sink) (plat : Platform) (now : Int)
    (rest : List (Platform × Int)) (d : Daemon)
    (hcs : d.mux.cstatus.length = d.numOfPorts + 1)
    (hrem : d.remaining.length = d.numOfPorts)
    (hok : (restart_attempt sink plat d).2 = 0) :
    ∃ d1, restart_loop sink ((plat, now) :: rest) d = some d1 ∧
      (∀ c, c ≤ d.numOfPorts → ∃ cs, d1.mux.cstatus[c]? = some cs ∧ cs.opened = 0) ∧
      (∀ p, p < d.numOfPorts → d1.remaining[p]? = some 0) ∧
      d1.in_buf = d.in_buf ∧ d1.pingNumber = 1 ∧ d1.frameReceiveTime = now := by
  have hrun : restart_loop sink ((plat, now) :: rest) d
      = some { (restart_attempt sink plat d).1 with frameReceiveTime := now,
                                                     pingNumber := 1 } := by
    simp [restart_loop, hok]
  obtain ⟨h1, h2, h3, h4, h5⟩ := openDevicesAndMuxMode_resets sink plat
    { closeDevices d with mux := { (closeDevices d).mux with terminateCount := -1 } } hok
  refine ⟨_, hrun, ?_, ?_, h3, rfl, rfl⟩
  · intro c hc
    have hlt : c < (restart_attempt sink plat d).1.mux.cstatus.length := by
      unfold restart_attempt
      rw [h4]
      show c < d.mux.cstatus.length
      omega
    exact ⟨_, List.getElem?_eq_getElem hlt,
      h1 c (Nat.lt_succ_of_le hc) _ (List.getElem?_eq_getElem hlt)⟩
  · intro p hp
    have hlt : p < (restart_attempt sink plat d).1.remaining.length := by
      unfold restart_attempt
      rw [h5]
      show p < d.remaining.length
      omega
    have hx := h2 p hp _ (List.getElem?_eq_getElem hlt)
    show (restart_attempt sink plat d).1.remaining[p]? = some 0
    rw [List.getElem?_eq_getElem hlt, ← hx]

/-- C19 amended, at a concrete input: the restart of the example daemon
succeeds at its first attempt. -/
theorem restart_resets_tables_witness :
    ∃ d1, restart_loop full_sink [(good_platform, 17)] daemon0 = some d1 ∧
      (∀ c, c ≤ daemon0.numOfPorts → ∃ cs, d1.mux.cstatus[c]? = some cs ∧ cs.opened = 0) ∧
      (∀ p, p < daemon0.numOfPorts → d1.remaining[p]? = some 0) ∧
      d1.in_buf = daemon0.in_buf ∧ d1.pingNumber = 1 ∧ d1.frameReceiveTime = 17 :=
  restart_resets_tables full_sink good_platform 17 [] daemon0 rfl rfl (by decide)

/-! ## The scan of `findInBuf` -/

/-- What does hold of `findInBuf`: when the loop answers 1, the needle (its
bytes are not NUL) occurs in the bytes visited. -/
theorem findInBuf_loop_sound (needle : List Nat) (hnz : ∀ b ∈ needle, b ≠ 0) :
    ∀ (rest seen : List Nat) (k : Nat), k < needle.length →
      needle.take k <:+ seen → findInBuf_loop needle rest k = 1 →
      needle <:+: seen ++ rest := by
  intro rest
  induction rest with
  | nil =>
    intro seen k _ _ h
    simp [findInBuf_loop] at h
  | cons b rest ih =>
    intro seen k hk hsuf h
    have hget : needle.getD k 0 = needle[k] := by
      simp [List.getD, List.getElem?_eq_getElem hk]
    have htake : needle.take (k + 1) = needle.take k ++ [needle[k]] := by
      rw [List.take_succ, List.getElem?_eq_getElem hk]; rfl
    have hseen : seen ++ b :: rest = (seen ++ [b]) ++ rest := by simp
    rw [findInBuf_loop] at h
    by_cases hb : needle.getD k 0 = b
    · rw [if_pos hb] at h
      have hbk : needle[k] = b := by rw [← hget]; exact hb
      have hsuf2 : needle.take (k + 1) <:+ seen ++ [b] := by
        rw [htake, hbk]
        obtain ⟨t, ht⟩ := hsuf
        exact ⟨t, by rw [← ht]; simp⟩
      by_cases hend : needle.getD (k + 1) 0 = 0
      · -- the whole needle has been matched
        have hlen : k + 1 = needle.length := by
          by_contra hne
          have hlt : k + 1 < needle.length := by omega
          have : needle.getD (k + 1) 0 = needle[k + 1] := by
            simp [List.getD, List.getElem?_eq_getElem hlt]
          rw [this] at hend
          exact hnz _ (List.getElem_mem hlt) hend
        have hall : needle.take (k + 1) = needle := by
          rw [hlen]; exact List.take_length needle
        rw [hall] at hsuf2
        obtain ⟨t, ht⟩ := hsuf2
        exact ⟨t, rest, by rw [hseen, ← ht]⟩
      · rw [if_neg hend] at h
        have hlt : k + 1 < needle.length := by
          by_contra hne
          apply hend
          simp [List.getD, List.getElem?_eq_none (by omega : needle.length ≤ k + 1)]
        rw [hseen]
        exact ih (seen ++ [b]) (k + 1) hlt hsuf2 h
    · rw [if_neg hb] at h
      rw [hseen]
      exact ih (seen ++ [b]) 0 (by omega) (by simp) h

theorem findInBuf_sound (buf : List Nat) (len : Int) (needle : List Nat)
    (hne : needle ≠ []) (hnz : ∀ b ∈ needle, b ≠ 0)
    (h : findInBuf buf len needle = 1) : needle <:+: buf.take len.toNat := by
  have hpos : 0 < needle.length := List.length_pos.mpr hne
  have h0 : needle.getD 0 0 ≠ 0 := by
    have : needle.getD 0 0 = needle[0] := by
      simp [List.getD, List.getElem?_eq_getElem hpos]
    rw [this]
    exact hnz _ (List.getElem_mem hpos)
  unfold findInBuf at h
  rw [if_neg h0] at h
  have := findInBuf_loop_sound needle hnz (buf.take len.toNat) [] 0 hpos (by simp) h
  simpa using this

/-! ## Reads of `handle_command` -/

/-- C21, the code at the failing input: for the one-byte control-channel
payload 0x42 (CR set, EA clear) the loop over the type bytes stops at
`i = data_length = 1`, `type_length` becomes 2, and the loop that builds the
C_NSC reply copies `data[0]` and then reads `data[1]`, one byte past the
payload. -/
theorem handle_command_reads_past_payload :
    (⟨0, 0xEF, [0x42]⟩ : GSM0710_Frame).data_length = 1 ∧
    skip_type [0x42] 0 + 1 = 2 ∧
    ([0x42] : List Nat)[1]? = none ∧
    copy_type [0x42] 2 2 [C_NSC, 0] = none ∧
    handle_command full_sink ⟨0, 0xEF, [0x42]⟩ st0 = none ∧
    extract_frames full_sink [⟨0, 0xEF, [0x42]⟩] st0 = none := by
  refine ⟨rfl, by decide, rfl, by decide, by decide, by decide⟩

theorem skip_type_le (data : List Nat) :
    ∀ i, i ≤ skip_type data i ∧ skip_type data i ≤ i + data.length := by
  induction data with
  | nil => intro i; simp [skip_type]
  | cons b rest ih =>
    intro i
    simp only [skip_type]
    split_ifs
    · have := ih (i + 1)
      simp only [List.length_cons]
      omega
    · simp

theorem skip_type_stops (data : List Nat) :
    ∀ i, (∃ b ∈ data, b &&& EA ≠ 0) → skip_type data i < i + data.length := by
  induction data with
  | nil => intro i h; obtain ⟨b, hb, _⟩ := h; cases hb
  | cons b rest ih =>
    intro i h
    simp only [skip_type, List.length_cons]
    split_ifs with hb
    · obtain ⟨c, hc, hce⟩ := h
      rcases List.mem_cons.mp hc with rfl | hc
      · exact absurd hb hce
      · have := ih (i + 1) ⟨c, hc, hce⟩
        omega
    · omega

theorem skip_type_runs (data : List Nat) :
    ∀ i, (∀ b ∈ data, b &&& EA = 0) → skip_type data i = i + data.length := by
  induction data with
  | nil => intro i _; simp [skip_type]
  | cons b rest ih =>
    intro i h
    simp only [skip_type, List.length_cons]
    rw [if_pos (h b (List.mem_cons_self _ _)), ih (i + 1) (fun c hc => h c (List.mem_cons_of_mem _ hc))]
    omega

theorem copy_type_inside (data : List Nat) :
    ∀ (n i : Nat) (response : List Nat), 2 ≤ i → i - 2 + n ≤ data.length →
      ∃ r, copy_type data n i response = some r := by
  intro n
  induction n with
  | zero => intro i response _ _; exact ⟨_, rfl⟩
  | succ n ih =>
    intro i response hi hlen
    simp only [copy_type]
    rw [List.getElem?_eq_getElem (by omega)]
    exact ih (i + 1) _ (by omega) (by omega)

theorem copy_type_outside (data : List Nat) :
    ∀ (n i : Nat) (response : List Nat), 2 ≤ i → i - 2 ≤ data.length →
      data.length < i - 2 + n → copy_type data n i response = none := by
  intro n
  induction n with
  | zero => intro i response _ h1 h2; omega
  | succ n ih =>
    intro i response hi h1 h2
    simp only [copy_type]
    by_cases hlt : i - 2 < data.length
    · rw [List.getElem?_eq_getElem hlt]
      exact ih (i + 1) _ (by omega) (by omega) (by omega)
    · rw [List.getElem?_eq_none (by omega)]

/-- What does hold of the reads of `handle_command`: when some byte of the
payload has the EA bit set, every read is inside the payload and the function
comes to its end. -/
theorem handle_command_inside (sink : Sink) (frame : GSM0710_Frame) (st : Mux)
    (hea : ∃ b ∈ frame.data, b &&& EA ≠ 0) :
    ∃ st1, handle_command sink frame st = some st1 := by
  have hstop := skip_type_stops frame.data 0 hea
  obtain ⟨b, hb, _⟩ := hea
  cases hdata : frame.data with
  | nil => rw [hdata] at hb; cases hb
  | cons t rest =>
    have hlen : frame.data_length = rest.length + 1 := by
      simp [GSM0710_Frame.data_length, hdata]
    rw [hdata] at hstop
    unfold handle_command
    simp only [hlen, hdata, gt_iff_lt, Nat.zero_lt_succ, if_true, List.getElem?_cons_zero]
    have hlen2 : (t :: rest).length = rest.length + 1 := rfl
    obtain ⟨r, hr⟩ := copy_type_inside (t :: rest) (skip_type (t :: rest) 0 + 1) 2
      [C_NSC, (EA &&& ((127 &&& (skip_type (t :: rest) 0 + 1)) <<< 1)) % 256] le_rfl
      (by simp only [List.length_cons, Nat.zero_add] at hstop ⊢; omega)
    split_ifs
    all_goals first
      | exact ⟨_, rfl⟩
      | (rw [List.getElem?_eq_getElem (by rw [hlen2]; omega),
          List.getElem?_eq_getElem (by rw [hlen2]; omega)]
         exact ⟨_, rfl⟩)
      | (rw [hr]
         exact ⟨_, rfl⟩)

theorem and_not_cr_even (t : Nat) (h : t &&& EA = 0) : and_not t CR &&& 1 = 0 := by
  unfold and_not CR
  rw [Nat.and_assoc]
  exact h

/-- The reads of `handle_command` leave the payload exactly for the commands
(CR set in the first byte) in which no byte has the EA bit set. -/
theorem handle_command_outside (sink : Sink) (frame : GSM0710_Frame) (st : Mux)
    (t : Nat) (rest : List Nat) (hdata : frame.data = t :: rest)
    (hea : ∀ b ∈ frame.data, b &&& EA = 0) (hcr : t &&& CR = CR) :
    handle_command sink frame st = none := by
  have hrun := skip_type_runs frame.data 0 hea
  have ht : t &&& EA = 0 := hea t (by rw [hdata]; exact List.mem_cons_self _ _)
  have heven := and_not_cr_even t ht
  have h1 : and_not t CR ≠ C_CLD := by
    intro h; rw [h] at heven; exact absurd heven (by decide)
  have h2 : and_not t CR ≠ C_TEST := by
    intro h; rw [h] at heven; exact absurd heven (by decide)
  have h3 : and_not t CR ≠ C_MSC := by
    intro h; rw [h] at heven; exact absurd heven (by decide)
  have hlen : frame.data_length = rest.length + 1 := by
    simp [GSM0710_Frame.data_length, hdata]
  rw [hdata] at hrun
  have hcopy := copy_type_outside (t :: rest) (skip_type (t :: rest) 0 + 1) 2
    [C_NSC, (EA &&& ((127 &&& (skip_type (t :: rest) 0 + 1)) <<< 1)) % 256] le_rfl
    (by simp) (by rw [hrun]; simp)
  unfold handle_command
  simp only [hlen, hdata, gt_iff_lt, Nat.zero_lt_succ, if_true, List.getElem?_cons_zero, hcr,
    h1, h2, h3, if_false, hcopy]

/-! ## Termination of `ussp_recv_data` -/

/-- More fuel does not change what the loop of `ussp_recv_data` gives. -/
theorem ussp_recv_data_loop_mono (sink : Sink) (buf : List Nat) (len : Int) (port : Int) :
    ∀ (fuel : Nat) (written i : Int) (st : Mux) (r : Mux × Int × Int),
      ussp_recv_data_loop sink buf len port fuel written i st = some r →
      ussp_recv_data_loop sink buf len port (fuel + 1) written i st = some r := by
  intro fuel
  induction fuel with
  | zero =>
    intro written i st r h
    by_cases hc : written ≠ len ∧ i < WRITE_RETRIES
    · simp [ussp_recv_data_loop, hc] at h
    · simp only [ussp_recv_data_loop, hc, if_false] at h ⊢
      exact h
  | succ fuel ih =>
    intro written i st r h
    by_cases hc : written ≠ len ∧ i < WRITE_RETRIES
    · rw [ussp_recv_data_loop, if_pos hc] at h
      rw [ussp_recv_data_loop, if_pos hc]
      exact ih _ _ _ r h
    · rw [ussp_recv_data_loop, if_neg hc] at h
      rw [ussp_recv_data_loop, if_neg hc]
      exact h

end Gsmmux
